import Mathlib

/-!
# Verification of the lsmkv memtable flush, the esvector migrator and the hybrid search filter

Shallow embedding of

* `adapters/repos/db/lsmkv/memtable.go` : `Memtable`, `newMemtable`, `get`, `put`, `Size`,
  `flush`, `totalValueSize`;
* `adapters/repos/esvector/migrator.go` : `AddClass`, `AddProperty`, `classIndexFromClassName`,
  `setMappings`, `typeMap`;
* `adapters/handlers/graphql/local/common_filters/hybrid.go` : `ExtractHybridSearch`.

Go values are embedded as follows.  A `[]byte` is a list of bytes, a byte is a number below 256.
Go's `int` is a 64-bit two's complement integer: it is an `Int` wrapped by `wrapInt` after every
addition.  A `uint64` is a `Nat` reduced modulo `2^64` after every addition.  An `error` is an
`Option`, `none` standing for Go's `nil`.  The reader/writer lock of the memtable plays no part in
a sequential run and is left out.

The file written by `flush` is a byte string together with the record of the calls of `Write`
made on it.  What the operating system does to each call is a parameter of the run (`Faults`): a
call succeeds in full, or it stops after some bytes with an error.  A file never grows beyond
`2^63 - 1` bytes, its offset being a signed 64-bit number.  The repo behind the migrator is
likewise a parameter: the answers it gives to `PutIndex` and `SetMappings`; a run of the migrator
records the calls made on the repo.

The ordered buffer of the memtable (`binarySearchTree`) is not among the sources; it is modelled
from the specification as a search tree that inserts or overwrites.  The library functions
`bytes.Compare`, `sort.Slice`, `binary.Write` and the murmur3 digest follow their documentation.
-/

namespace lsmkv

/-- One byte. -/
abbrev Byte := Fin 256

/-- Go's `[]byte`. -/
abbrev Bytes := List Byte

/-- Modelled from the spec: the `error` values met in this package.  `NotFound` is the sentinel
of the package that `get` returns for an absent key (its declaration is not among the sources),
`sys` an error reported by the operating system, `wrapf` the result of
`errors.Wrapf(cause, msg)`. -/
inductive Error where
  | NotFound : Error
  | sys (msg : String) : Error
  | wrapf (cause : Error) (msg : String) : Error
deriving DecidableEq, Repr

/-- The function `errors.Cause`: the innermost error of a chain of `wrapf`. -/
def Error.Cause : Error → Error
  | Error.wrapf c _ => c.Cause
  | e => e

namespace bytes

/-- The function `bytes.Compare` of the Go standard library: lexicographic comparison of two
byte strings, bytes compared as unsigned numbers; the result is -1, 0 or +1. -/
def Compare : Bytes → Bytes → Int
  | [], [] => 0
  | [], _ :: _ => -1
  | _ :: _, [] => 1
  | a :: as, b :: bs =>
    if a.val < b.val then -1 else if b.val < a.val then 1 else Compare as bs

end bytes

/-- The `size` low bytes of `x`, least significant first (`binary.LittleEndian`). -/
def littleEndian : Nat → Nat → Bytes
  | 0, _ => []
  | size + 1, x => ⟨x % 256, Nat.mod_lt _ (by decide)⟩ :: littleEndian size (x / 256)

/-- The number whose bytes, least significant first, are given. -/
def fromLittleEndian : Bytes → Nat
  | [] => 0
  | b :: bs => b.val + 256 * fromLittleEndian bs

namespace murmur3

/-- Multiplication of 64-bit unsigned values. -/
def mul64 (a b : Nat) : Nat := (a * b) % 2 ^ 64

/-- Addition of 64-bit unsigned values. -/
def add64 (a b : Nat) : Nat := (a + b) % 2 ^ 64

/-- Rotation to the left of a 64-bit unsigned value. -/
def rotl64 (x r : Nat) : Nat := ((x <<< r) ||| (x >>> (64 - r))) % 2 ^ 64

/-- First multiplication constant of MurmurHash3_x64_128. -/
def c1 : Nat := 0x87c37b91114253d5

/-- Second multiplication constant of MurmurHash3_x64_128. -/
def c2 : Nat := 0x4cf5ad432745937f

/-- The finalization mix of one 64-bit half. -/
def fmix64 (k : Nat) : Nat :=
  let k := k ^^^ (k >>> 33)
  let k := mul64 k 0xff51afd7ed558ccd
  let k := k ^^^ (k >>> 33)
  let k := mul64 k 0xc4ceb9fe1a85ec53
  k ^^^ (k >>> 33)

/-- Scrambling of the low half of a block. -/
def mixK1 (k1 : Nat) : Nat := mul64 (rotl64 (mul64 k1 c1) 31) c2

/-- Scrambling of the high half of a block. -/
def mixK2 (k2 : Nat) : Nat := mul64 (rotl64 (mul64 k2 c2) 33) c1

/-- One 16-byte block mixed into the state `(h1, h2)`. -/
def block (h : Nat × Nat) (p : Bytes) : Nat × Nat :=
  let k1 := fromLittleEndian (p.take 8)
  let k2 := fromLittleEndian (p.drop 8)
  let h1 := h.1 ^^^ mixK1 k1
  let h1 := rotl64 h1 27
  let h1 := add64 h1 h.2
  let h1 := add64 (mul64 h1 5) 0x52dce729
  let h2 := h.2 ^^^ mixK2 k2
  let h2 := rotl64 h2 31
  let h2 := add64 h2 h1
  let h2 := add64 (mul64 h2 5) 0x38495ab5
  (h1, h2)

/-- The first `n` 16-byte blocks mixed into the state; the unread tail is returned with it. -/
def body : Nat → Nat × Nat → Bytes → (Nat × Nat) × Bytes
  | 0, h, p => (h, p)
  | n + 1, h, p => body n (block h (p.take 16)) (p.drop 16)

/-- The eight bytes of a 64-bit value, most significant first. -/
def be64 (x : Nat) : Bytes :=
  (List.range 8).map (fun i => ⟨(x >>> (8 * (7 - i))) % 256, Nat.mod_lt _ (by decide)⟩)

/-- The digest computed at memtable.go:93-95, `murmur3.New128()`, `Write(key)`, `Sum(nil)`, of
the library github.com/spaolacci/murmur3: MurmurHash3_x64_128 with seed 0, the two 64-bit halves
written most significant byte first. -/
def Sum128 (data : Bytes) : Bytes :=
  let r := body (data.length / 16) (0, 0) data
  let tail := r.2
  let h1 := r.1.1
  let h2 := r.1.2
  let h2 := if 8 < tail.length then h2 ^^^ mixK2 (fromLittleEndian (tail.drop 8)) else h2
  let h1 := if 0 < tail.length then h1 ^^^ mixK1 (fromLittleEndian (tail.take 8)) else h1
  let h1 := h1 ^^^ data.length
  let h2 := h2 ^^^ data.length
  let h1 := add64 h1 h2
  let h2 := add64 h2 h1
  let h1 := fmix64 h1
  let h2 := fmix64 h2
  let h1 := add64 h1 h2
  let h2 := add64 h2 h1
  be64 h1 ++ be64 h2

end murmur3

namespace sort

/-- The function `sort.Slice` of the Go standard library, on the elements of the slice: the
slice is put in an order in which no element is `less` than an element before it.  The library
does not promise where elements that are not `less` than each other end up; the model is the
insertion sort. -/
def Slice {α : Type} (less : α → α → Bool) (x : List α) : List α :=
  x.insertionSort (fun a b => less b a = false)

end sort

/-- An element of the slice returned by `flattenInOrder`: the `key` and `value` fields that
`flush` reads from a `*binarySearchNode`. -/
structure Entry where
  key : Bytes
  value : Bytes
deriving DecidableEq, Repr

/-- Modelled from the spec: the node type of the ordered key-value buffer
(`binarySearchNode`; the file declaring it is not among the sources).  `nil` is Go's nil pointer. -/
inductive binarySearchNode where
  | nil : binarySearchNode
  | node (key value : Bytes) (left right : binarySearchNode) : binarySearchNode
deriving DecidableEq, Repr

namespace binarySearchNode

/-- Modelled from the spec: `insert(key, value)` "inserts or overwrites": an existing key gets the
new value, a new key is placed by the byte-wise order of the keys. -/
def insert (k v : Bytes) : binarySearchNode → binarySearchNode
  | nil => node k v nil nil
  | node k0 v0 l r =>
    if bytes.Compare k k0 = 0 then node k0 v l r
    else if bytes.Compare k k0 < 0 then node k0 v0 (insert k v l) r
    else node k0 v0 l (insert k v r)

/-- Modelled from the spec: `lookup(key) -> value or NotFound`; the Go method returns the value
and a boolean, here `none` is `(nil, false)`. -/
def get (k : Bytes) : binarySearchNode → Option Bytes
  | nil => none
  | node k0 v0 l r =>
    if bytes.Compare k k0 = 0 then some v0
    else if bytes.Compare k k0 < 0 then get k l
    else get k r

/-- Modelled from the spec: `drainInOrder()`, the in-order traversal "sorted by key". -/
def flattenInOrder : binarySearchNode → List Entry
  | nil => []
  | node k0 v0 l r => flattenInOrder l ++ Entry.mk k0 v0 :: flattenInOrder r

end binarySearchNode

/-- Modelled from the spec: the ordered key-value buffer `binarySearchTree` held by the memtable
(the file declaring it is not among the sources). -/
structure binarySearchTree where
  root : binarySearchNode
deriving DecidableEq, Repr

namespace binarySearchTree

/-- Modelled from the spec: insert or overwrite (the method `insert` of the buffer). -/
def insert (t : binarySearchTree) (k v : Bytes) : binarySearchTree :=
  ⟨t.root.insert k v⟩

/-- Modelled from the spec: point lookup (the method `get` of the buffer). -/
def get (t : binarySearchTree) (k : Bytes) : Option Bytes :=
  t.root.get k

/-- Modelled from the spec: in-order traversal (the method `flattenInOrder` of the buffer). -/
def flattenInOrder (t : binarySearchTree) : List Entry :=
  t.root.flattenInOrder

end binarySearchTree

/-- The struct `Memtable` (memtable.go:14), without its `sync.RWMutex`. `size` is a `uint64`. -/
structure Memtable where
  key : binarySearchTree
  primaryIndex : binarySearchTree
  size : Nat
  path : String
deriving DecidableEq, Repr

/-- The function `newMemtable` (memtable.go:22). -/
def newMemtable (path : String) : Memtable :=
  { key := ⟨binarySearchNode.nil⟩, primaryIndex := ⟨binarySearchNode.nil⟩, size := 0,
    path := path }

/-- The struct `keyIndex` (memtable.go:30); `valueStart` and `valueEnd` are Go `int`s. -/
structure keyIndex where
  hash : Bytes
  valueStart : Int
  valueEnd : Int
deriving DecidableEq, Repr

/-- Addition of `uint64` values. -/
def addUint64 (a b : Nat) : Nat := (a + b) % 2 ^ 64

/-- Reduction of an integer to the range of Go's 64-bit `int`. -/
def wrapInt (x : Int) : Int := (x + 2 ^ 63) % 2 ^ 64 - 2 ^ 63

/-- The conversion `uint64(x)` of an `int`. -/
def uint64 (x : Int) : Nat := (x % 2 ^ 64).toNat

namespace Memtable

/-- The method `Memtable.get` (memtable.go:36): the pair of the returned value (`none` for a nil
slice) and the returned error. -/
def get (l : Memtable) (key : Bytes) : Option Bytes × Option Error :=
  match l.key.get key with
  | none => (none, some Error.NotFound)
  | some v => (some v, none)

/-- The method `Memtable.put` (memtable.go:48): the memtable after the call and the returned
error. -/
def put (l : Memtable) (key value : Bytes) : Memtable × Option Error :=
  let l1 := { l with key := l.key.insert key value }
  let l2 := { l1 with size := addUint64 l1.size key.length }
  let l3 := { l2 with size := addUint64 l2.size value.length }
  (l3, none)

/-- The method `Memtable.Size` (memtable.go:58). -/
def Size (l : Memtable) : Nat := l.size

end Memtable

/-- The largest size of a file: the offset of a file is a signed 64-bit number. -/
def maxFileSize : Nat := 2 ^ 63 - 1

/-- The record of one call of `Write` on the file: the number of bytes handed over, the number of
bytes written and the error returned. -/
structure WriteCall where
  requested : Nat
  n : Nat
  err : Option Error
deriving DecidableEq, Repr

/-- The file created by `os.Create`: its content, and the calls of `Write` made on it so far. -/
structure File where
  data : Bytes
  calls : List WriteCall
deriving DecidableEq, Repr

/-- What the operating system does to the calls of `Write`: `env i = none` when the call number
`i` (from 0) meets no fault, `env i = some (k, e)` when it stops after at most `k` bytes with the
error `e`. -/
abbrev Faults := Nat → Option (Nat × Error)

/-- A call of `Write` that wrote all its bytes and returned no error. -/
def WriteCall.ok (c : WriteCall) : Bool := c.err.isNone && c.n == c.requested

/-- Every call of `Write` made on the file so far succeeded in full. -/
def File.allOk (f : File) : Bool := f.calls.all WriteCall.ok

namespace File

/-- The method `(*os.File).Write`: the file after the call, the number of bytes written and the
error.  The bytes that are written are appended.  Without a fault the call writes everything,
unless the file would pass `maxFileSize`: then it writes what fits and reports an error. -/
def Write (env : Faults) (f : File) (p : Bytes) : File × Nat × Option Error :=
  let room := maxFileSize - f.data.length
  let r : Nat × Option Error :=
    match env f.calls.length with
    | some (k, e) => (min k (min p.length room), some e)
    | none =>
      if p.length ≤ room then (p.length, none) else (room, some (Error.sys "file too large"))
  ({ data := f.data ++ p.take r.1, calls := f.calls ++ [⟨p.length, r.1, r.2⟩] }, r.1, r.2)

end File

namespace binary

/-- The call `binary.Write(f, binary.LittleEndian, &x)` for an unsigned integer `x` of `size`
bytes: the encoding of `x` is handed to `Write` in one call, and the error of that call is
returned. -/
def Write (env : Faults) (f : File) (size x : Nat) : File × Option Error :=
  let r := f.Write env (littleEndian size x)
  (r.1, r.2.2)

end binary

/-- The function `totalValueSize` (memtable.go:128). -/
def totalValueSize (flat : List Entry) : Int :=
  flat.foldl (fun sum n => wrapInt (sum + n.value.length)) 0

/-- The loop of memtable.go:87-103 from the node number `i` on: `f` is the file, `totalWritten`
the counter and `keys` the records filled so far.  The result is the file and either the
returned error or the filled `keys` with the final counter. -/
def writeValues (env : Faults) :
    List Entry → Nat → File → Int → List keyIndex →
      File × Except Error (List keyIndex × Int)
  | [], _, f, totalWritten, keys => (f, Except.ok (keys, totalWritten))
  | node :: rest, i, f, totalWritten, keys =>
    match f.Write env node.value with
    | (f1, _, some err) => (f1, Except.error (Error.wrapf err ("write node " ++ toString i)))
    | (f1, n, none) =>
      let hash := murmur3.Sum128 node.key
      let k : keyIndex :=
        { valueStart := totalWritten, valueEnd := wrapInt (totalWritten + n), hash := hash }
      writeValues env rest (i + 1) f1 (wrapInt (totalWritten + n)) (keys ++ [k])

/-- The comparison handed to `sort.Slice` at memtable.go:106. -/
def hashLess (a b : keyIndex) : Bool := decide (bytes.Compare a.hash b.hash < 0)

/-- The loop of memtable.go:112-123: the file after it and the returned error.  The result of
the call `f.Write(key.hash)` is dropped, as at memtable.go:113; `stop` is the variable `end`. -/
def writeIndex (env : Faults) : List keyIndex → File → File × Option Error
  | [], f => (f, none)
  | key :: rest, f =>
    let f1 := (f.Write env key.hash).1
    let start := uint64 key.valueStart
    let stop := uint64 key.valueEnd
    match binary.Write env f1 8 start with
    | (f2, some err) => (f2, some err)
    | (f2, none) =>
      match binary.Write env f2 8 stop with
      | (f3, some err) => (f3, some err)
      | (f3, none) => writeIndex env rest f3

/-- What a run of `flush` leaves: the file at the memtable's path (`none` when it could not be
created) and the returned error. -/
structure FlushResult where
  file : Option File
  err : Option Error
deriving DecidableEq, Repr

namespace FlushResult

/-- The content of the file that the run leaves (empty when the file could not be created). -/
def data (r : FlushResult) : Bytes :=
  match r.file with
  | some f => f.data
  | none => []

/-- The calls of `Write` that the run made, in order. -/
def calls (r : FlushResult) : List WriteCall :=
  match r.file with
  | some f => f.calls
  | none => []

/-- The file was created and every call of `Write` that the run made succeeded in full. -/
def allOk (r : FlushResult) : Bool :=
  match r.file with
  | some f => f.allOk
  | none => false

end FlushResult

namespace Memtable

/-- The method `Memtable.flush` (memtable.go:65).  `create` is the error of `os.Create` (`none`
when the file is created, empty), `env` the faults met by the calls of `Write`.  The deferred
`f.Close()` drops its error and is left out. -/
def flush (create : Option Error) (env : Faults) (l : Memtable) : FlushResult :=
  match create with
  | some err => { file := none, err := some err }
  | none =>
    let f : File := { data := [], calls := [] }
    let flat := l.key.flattenInOrder
    let indexPos := addUint64 (uint64 (totalValueSize flat)) 10
    let level := 0
    match binary.Write env f 2 level with
    | (f, some err) => { file := some f, err := some err }
    | (f, none) =>
      match binary.Write env f 8 indexPos with
      | (f, some err) => { file := some f, err := some err }
      | (f, none) =>
        match writeValues env flat 0 f 10 [] with
        | (f, Except.error err) => { file := some f, err := some err }
        | (f, Except.ok (keys, _)) =>
          let keys := sort.Slice hashLess keys
          match writeIndex env keys f with
          | (f, err) => { file := some f, err := err }

end Memtable

/-- The memtable after a sequence of calls of `put`, made in the order of the list. -/
def putAll (l : Memtable) (ps : List (Bytes × Bytes)) : Memtable :=
  ps.foldl (fun m p => (m.put p.1 p.2).1) l

/-- One call of a point operation of the memtable. -/
inductive Op where
  | put (key value : Bytes) : Op
  | get (key : Bytes) : Op
  | Size : Op
deriving DecidableEq, Repr

/-- The memtable after one call.  `put` leaves the state that it returns; `get` and `Size`
assign to no field of the memtable (memtable.go:36-46 and 58-63) and leave it as it was. -/
def step (l : Memtable) : Op → Memtable
  | Op.put key value => (l.put key value).1
  | Op.get _ => l
  | Op.Size => l

/-- The memtable after a sequence of calls, made in the order of the list. -/
def runOps (l : Memtable) (ops : List Op) : Memtable :=
  ops.foldl step l

/-- The number of bytes handed to the puts of a sequence of calls: the sum of
`len(key) + len(value)` over its puts. -/
def opBytes : List Op → Nat
  | [] => 0
  | Op.put key value :: rest => key.length + value.length + opBytes rest
  | Op.get _ :: rest => opBytes rest
  | Op.Size :: rest => opBytes rest

/-- The number of bytes handed to a sequence of puts: the sum of `len(key) + len(value)`. -/
def putBytes (ps : List (Bytes × Bytes)) : Nat :=
  (ps.map (fun p => p.1.length + p.2.length)).sum

/-- A value of `2^32` zero bytes. -/
def bigValue : Bytes := List.replicate (2 ^ 32) 0

/-- The sequence of `2^32 - 1` puts of `bigValue` under the empty key. -/
def wrapPuts : List (Bytes × Bytes) := List.replicate (2 ^ 32 - 1) ([], bigValue)

/-- The bytes of "apple". -/
def apple : Bytes := [97, 112, 112, 108, 101]

/-- The bytes of "banana". -/
def banana : Bytes := [98, 97, 110, 97, 110, 97]

/-- The bytes of "red". -/
def red : Bytes := [114, 101, 100]

/-- The bytes of "yellow". -/
def yellow : Bytes := [121, 101, 108, 108, 111, 119]

/-- The memtable of the scenario of the specification: ("apple", "red") is put, then
("banana", "yellow"). -/
def fruits : Memtable := putAll (newMemtable "segment") [(apple, red), (banana, yellow)]

/-- The same two puts made in the other order. -/
def fruitsReversed : Memtable := putAll (newMemtable "segment") [(banana, yellow), (apple, red)]

/-- The operating system that meets no fault. -/
def noFaults : Faults := fun _ => none

/-- The memtable holding the one entry ("apple", "red"). -/
def oneFruit : Memtable := putAll (newMemtable "segment") [(apple, red)]

/-- The operating system on which the call number 3 of `Write` writes nothing and reports that
the device is full, and every other call meets no fault.  In the flush of `oneFruit` the calls
0 and 1 write the header, 2 the value, 3 the hash of the one index record, 4 and 5 its offsets. -/
def hashWriteFault : Faults :=
  fun i => if i = 3 then some (0, Error.sys "no space left on device") else none

/-- The operating system on which the call number 2 of `Write`, the write of the value in the
flush of `oneFruit`, writes one byte and reports that the device is full. -/
def valueWriteFault : Faults :=
  fun i => if i = 2 then some (1, Error.sys "no space left on device") else none

/-- The bytes of "cherry". -/
def cherry : Bytes := [99, 104, 101, 114, 114, 121]

/-- The bytes of "dark". -/
def dark : Bytes := [100, 97, 114, 107]

/-- The memtable holding ("apple", "red"), ("banana", "yellow") and ("cherry", "dark"). -/
def threeFruits : Memtable :=
  putAll (newMemtable "segment") [(apple, red), (banana, yellow), (cherry, dark)]

/-- The operating system on which the call number 8 of `Write` writes nothing and reports that
the device is full, and every other call meets no fault.  In the flush of `threeFruits` the
calls 0 and 1 write the header, 2 to 4 the values, 5 to 7 the first index record, 8 the hash of
the second index record, 9 and 10 its offsets, 11 to 13 the third index record. -/
def secondHashWriteFault : Faults :=
  fun i => if i = 8 then some (0, Error.sys "no space left on device") else none

/-- The bytes of `d` at the offsets `a ≤ i < b`. -/
def slice (d : Bytes) (a b : Nat) : Bytes := (d.drop a).take (b - a)

/-- A record of the index region as a reader of the segment file gets it: the 16 bytes of the
hash and the two offsets. -/
structure IndexRecord where
  hash : Bytes
  valueStart : Nat
  valueEnd : Nat
deriving DecidableEq, Repr

/-- The field `level` read from the header of a segment file. -/
def readLevel (d : Bytes) : Nat := fromLittleEndian (slice d 0 2)

/-- The field `indexPos` read from the header of a segment file. -/
def readIndexPos (d : Bytes) : Nat := fromLittleEndian (slice d 2 10)

/-- One record read from its 32 bytes. -/
def readRecord (r : Bytes) : IndexRecord :=
  { hash := slice r 0 16
    valueStart := fromLittleEndian (slice r 16 24)
    valueEnd := fromLittleEndian (slice r 24 32) }

/-- The first `n` records of 32 bytes read from `d`. -/
def readRecords : Nat → Bytes → List IndexRecord
  | 0, _ => []
  | n + 1, d => readRecord (d.take 32) :: readRecords n (d.drop 32)

/-- The index region of a segment file: everything from the offset `indexPos` of the header. -/
def indexRegion (d : Bytes) : Bytes := d.drop (readIndexPos d)

/-- The records of the index region of a segment file, in the order of the file. -/
def readIndex (d : Bytes) : List IndexRecord :=
  readRecords ((indexRegion d).length / 32) (indexRegion d)

/-- The sum of the lengths of the values of the entries. -/
def valueBytes (flat : List Entry) : Nat := (flat.map (fun e => e.value.length)).sum

/-- The records that the value pass builds for the entries `flat` when the first value goes to
the offset `off` and every value is written in full: entry by entry, the hash of the key and the
range taken by the value. -/
def builtRecords : List Entry → Nat → List IndexRecord
  | [], _ => []
  | e :: rest, off =>
    { hash := murmur3.Sum128 e.key, valueStart := off, valueEnd := off + e.value.length } ::
      builtRecords rest (off + e.value.length)

/-- The slice `keys` that the loop of memtable.go:87-103 fills for the entries `flat` when the
counter `totalWritten` starts at `off` and every value is written in full. -/
def builtKeys : List Entry → Nat → List keyIndex
  | [], _ => []
  | e :: rest, off =>
    { hash := murmur3.Sum128 e.key, valueStart := (off : Int),
      valueEnd := ((off + e.value.length : Nat) : Int) } :: builtKeys rest (off + e.value.length)

/-- The record that a reader gets back from what `writeIndex` writes for `k`. -/
def recordOf (k : keyIndex) : IndexRecord :=
  { hash := k.hash, valueStart := uint64 k.valueStart, valueEnd := uint64 k.valueEnd }

/-- The records that a run of `flush` hands to the loop of memtable.go:112-123 when every value
was written in full, as a reader gets them back: the records built for the entries, sorted. -/
def writtenRecords (l : Memtable) : List IndexRecord :=
  (sort.Slice hashLess (builtKeys l.key.flattenInOrder 10)).map recordOf

/-- The 32 bytes that `writeIndex` writes for one record when its three writes succeed. -/
def encodeRecord (r : IndexRecord) : Bytes :=
  r.hash ++ littleEndian 8 r.valueStart ++ littleEndian 8 r.valueEnd

end lsmkv

namespace esvector

/-- Modelled from the spec: the type `kind.Kind` of `entities/schema/kind`, which is not among
the sources; the migrator uses its method `Name()` only. -/
structure Kind where
  Name : String
deriving DecidableEq, Repr

/-- Modelled from the spec: the type `models.SemanticSchemaClassProperty` of `entities/models`,
which is not among the sources: the fields read by the migrator, the pointer taken as not nil. -/
structure SemanticSchemaClassProperty where
  Name : String
  DataType : List String
deriving DecidableEq, Repr

/-- Modelled from the spec: the type `models.SemanticSchemaClass` of `entities/models`, which is
not among the sources: the fields read by the migrator, the pointer taken as not nil. -/
structure SemanticSchemaClass where
  Class : String
  Properties : List SemanticSchemaClassProperty
deriving DecidableEq, Repr

/-- Modelled from the spec: the constants of the type `FieldType` named in `setMappings`; they
are declared in a file of the package that is not among the sources. -/
inductive FieldType where
  | Keyword | Text | Integer | Float | Boolean | Date | GeoPoint
deriving DecidableEq, Repr

namespace schema

/-- Modelled from the spec: `schema.DataTypeString`, declared in `entities/schema`. -/
def DataTypeString : String := "string"

/-- Modelled from the spec: `schema.DataTypeText`, declared in `entities/schema`. -/
def DataTypeText : String := "text"

/-- Modelled from the spec: `schema.DataTypeInt`, declared in `entities/schema`. -/
def DataTypeInt : String := "int"

/-- Modelled from the spec: `schema.DataTypeNumber`, declared in `entities/schema`. -/
def DataTypeNumber : String := "number"

/-- Modelled from the spec: `schema.DataTypeBoolean`, declared in `entities/schema`. -/
def DataTypeBoolean : String := "boolean"

/-- Modelled from the spec: `schema.DataTypeDate`, declared in `entities/schema`. -/
def DataTypeDate : String := "date"

/-- Modelled from the spec: `schema.DataTypeGeoCoordinates`, declared in `entities/schema`. -/
def DataTypeGeoCoordinates : String := "geoCoordinates"

end schema

/-- A Go `map[string]T`, as the list of its entries; no key stands twice in it. -/
abbrev GoMap (β : Type) := List (String × β)

/-- The assignment `m[k] = v`. -/
def GoMap.set {β : Type} (m : GoMap β) (k : String) (v : β) : GoMap β :=
  (k, v) :: m.filter (fun e => e.1 != k)

/-- The value of `m[k]`, when the key is present. -/
def GoMap.get {β : Type} (m : GoMap β) (k : String) : Option β :=
  m.lookup k

/-- The function `typeMap` (migrator.go:125). -/
def typeMap (ft : FieldType) : GoMap FieldType :=
  [("type", ft)]

/-- A call received by the repo. -/
inductive Call where
  | PutIndex (index : String) : Call
  | SetMappings (index : String) (props : GoMap (GoMap FieldType)) : Call
deriving DecidableEq, Repr

/-- Modelled from the spec: the type `Repo` behind the migrator, which is not among the sources,
seen from the migrator: the error with which it answers a call (`none` for nil), errors being
their messages. -/
structure Repo where
  PutIndex : String → Option String
  SetMappings : String → GoMap (GoMap FieldType) → Option String

/-- How a call of a method of the migrator ends: it returns an error (`none` for nil), or it
panics. -/
inductive Outcome where
  | returned (err : Option String) : Outcome
  | panic (msg : String) : Outcome
deriving DecidableEq, Repr

/-- A run of a method of the migrator: the calls made on the repo, in order, and the end. -/
structure Run where
  calls : List Call
  outcome : Outcome
deriving DecidableEq, Repr

/-- The constant `indexPrefix` (migrator.go:80). -/
def indexPrefix : String := "class_"

/-- The function `classIndexFromClassName` (migrator.go:86); `lower` is `strings.ToLower`. -/
def classIndexFromClassName (lower : String → String) (kind : Kind) (className : String) :
    String :=
  indexPrefix ++ kind.Name ++ "_" ++ lower className

/-- The function `classIndexFromClass` (migrator.go:82). -/
def classIndexFromClass (lower : String → String) (kind : Kind) (cls : SemanticSchemaClass) :
    String :=
  classIndexFromClassName lower kind cls.Class

/-- The loop of `setMappings` (migrator.go:95-120) from the map `esProperties` filled so far:
the filled map, or the message of the panic of `prop.DataType[0]` on an empty `DataType`. -/
def esPropertiesLoop :
    List SemanticSchemaClassProperty → GoMap (GoMap FieldType) →
      Except String (GoMap (GoMap FieldType))
  | [], esProperties => Except.ok esProperties
  | prop :: rest, esProperties =>
    if prop.DataType.length > 1 then esPropertiesLoop rest esProperties
    else
      match prop.DataType with
      | [] => Except.error "runtime error: index out of range [0] with length 0"
      | dt :: _ =>
        if dt = schema.DataTypeString then
          esPropertiesLoop rest (esProperties.set prop.Name (typeMap FieldType.Keyword))
        else if dt = schema.DataTypeText then
          esPropertiesLoop rest (esProperties.set prop.Name (typeMap FieldType.Text))
        else if dt = schema.DataTypeInt then
          esPropertiesLoop rest (esProperties.set prop.Name (typeMap FieldType.Integer))
        else if dt = schema.DataTypeNumber then
          esPropertiesLoop rest (esProperties.set prop.Name (typeMap FieldType.Float))
        else if dt = schema.DataTypeBoolean then
          esPropertiesLoop rest (esProperties.set prop.Name (typeMap FieldType.Boolean))
        else if dt = schema.DataTypeDate then
          esPropertiesLoop rest (esProperties.set prop.Name (typeMap FieldType.Date))
        else if dt = schema.DataTypeGeoCoordinates then
          esPropertiesLoop rest (esProperties.set prop.Name (typeMap FieldType.GeoPoint))
        else esPropertiesLoop rest esProperties

namespace Migrator

/-- The method `Migrator.setMappings` (migrator.go:91). -/
def setMappings (repo : Repo) (index : String) (props : List SemanticSchemaClassProperty) :
    Run :=
  match esPropertiesLoop props [] with
  | Except.error msg => { calls := [], outcome := Outcome.panic msg }
  | Except.ok esProperties =>
    { calls := [Call.SetMappings index esProperties]
      outcome := Outcome.returned (repo.SetMappings index esProperties) }

/-- The method `Migrator.AddClass` (migrator.go:25); `lower` is `strings.ToLower`. -/
def AddClass (lower : String → String) (repo : Repo) (kind : Kind) (cls : SemanticSchemaClass) :
    Run :=
  let index := classIndexFromClass lower kind cls
  match repo.PutIndex index with
  | some err =>
    { calls := [Call.PutIndex index]
      outcome := Outcome.returned
        (some ("add class " ++ cls.Class ++ ": create index: " ++ err)) }
  | none =>
    match setMappings repo index cls.Properties with
    | { calls := calls, outcome := Outcome.panic msg } =>
      { calls := Call.PutIndex index :: calls, outcome := Outcome.panic msg }
    | { calls := calls, outcome := Outcome.returned (some err) } =>
      { calls := Call.PutIndex index :: calls
        outcome := Outcome.returned
          (some ("add class " ++ cls.Class ++ ": map properties: " ++ err)) }
    | { calls := calls, outcome := Outcome.returned none } =>
      { calls := Call.PutIndex index :: calls, outcome := Outcome.returned none }

end Migrator

/-- A repo that answers every call with nil. -/
def willingRepo : Repo :=
  { PutIndex := fun _ => none, SetMappings := fun _ _ => none }

/-- The kind "thing". -/
def thing : Kind := { Name := "thing" }

/-- A class with one property whose list of data types is empty. -/
def untypedCity : SemanticSchemaClass :=
  { Class := "City", Properties := [{ Name := "name", DataType := [] }] }

/-- A class with a string property, a reference property and a property of two data types. -/
def city : SemanticSchemaClass :=
  { Class := "City"
    Properties := [{ Name := "name", DataType := ["string"] },
      { Name := "inCountry", DataType := ["Country"] },
      { Name := "twinned", DataType := ["City", "Village"] }] }

/-- The field type that `setMappings` gives to a primitive data type, `none` for every other
data type. -/
def fieldTypeOf (dt : String) : Option FieldType :=
  if dt = schema.DataTypeString then some FieldType.Keyword
  else if dt = schema.DataTypeText then some FieldType.Text
  else if dt = schema.DataTypeInt then some FieldType.Integer
  else if dt = schema.DataTypeNumber then some FieldType.Float
  else if dt = schema.DataTypeBoolean then some FieldType.Boolean
  else if dt = schema.DataTypeDate then some FieldType.Date
  else if dt = schema.DataTypeGeoCoordinates then some FieldType.GeoPoint
  else none

/-- The field type of a primitive property: a property whose `DataType` has exactly one element,
a primitive data type; `none` for every other property. -/
def primitiveType (p : SemanticSchemaClassProperty) : Option FieldType :=
  match p.DataType with
  | [dt] => fieldTypeOf dt
  | _ => none

/-- The field type that the mapping is to hold under `name`: that of the last primitive property
of the list with this name, `none` when there is no such property. -/
def mappedType (props : List SemanticSchemaClassProperty) (name : String) : Option FieldType :=
  ((props.filter (fun p => decide (p.Name = name) && (primitiveType p).isSome)).getLast?).bind
    primitiveType

namespace Migrator

/-- The method `Migrator.AddProperty` (migrator.go:55); `lower` is `strings.ToLower`.  The
arguments of `fmt.Errorf` stand as in the source: `className` first, `prop.Name` second. -/
def AddProperty (lower : String → String) (repo : Repo) (kind : Kind) (className : String)
    (prop : SemanticSchemaClassProperty) : Run :=
  let index := classIndexFromClassName lower kind className
  match setMappings repo index [prop] with
  | { calls := calls, outcome := Outcome.panic msg } =>
    { calls := calls, outcome := Outcome.panic msg }
  | { calls := calls, outcome := Outcome.returned (some err) } =>
    { calls := calls
      outcome := Outcome.returned
        (some ("add property " ++ className ++ " to class " ++ prop.Name ++
          ": map properties: " ++ err)) }
  | { calls := calls, outcome := Outcome.returned none } =>
    { calls := calls, outcome := Outcome.returned none }

end Migrator

/-- A repo that creates every index and answers every call of `SetMappings` with the error
"boom". -/
def failingRepo : Repo :=
  { PutIndex := fun _ => none, SetMappings := fun _ _ => some "boom" }

/-- The property "population" of data type int. -/
def population : SemanticSchemaClassProperty :=
  { Name := "population", DataType := ["int"] }

/-- Properties for a run of `setMappings`: a string property, a reference, a property of two
data types, and a second property "name", of data type text. -/
def cityProperties : List SemanticSchemaClassProperty :=
  [{ Name := "name", DataType := ["string"] }, { Name := "inCountry", DataType := ["Country"] },
   { Name := "twinned", DataType := ["City", "Village"] }, population,
   { Name := "name", DataType := ["text"] }]

end esvector

deriving instance DecidableEq for Except

namespace common_filters

/-- A value of Go's `float64`, as far as comparisons go: not-a-number, an infinity, or the number
`m / 2^e`; every finite `float64` is such a number. -/
inductive Float64 where
  | NaN : Float64
  | Inf (negative : Bool) : Float64
  | num (m : Int) (e : Nat) : Float64
deriving DecidableEq, Repr

namespace Float64

/-- The comparison `a < b` of two `float64`: false whenever one of them is not-a-number. -/
def lt : Float64 → Float64 → Bool
  | num a e, num b f => decide (a * 2 ^ f < b * 2 ^ e)
  | Inf true, num _ _ => true
  | Inf true, Inf false => true
  | num _ _, Inf false => true
  | _, _ => false

/-- The comparison `a <= b` of two `float64`: false whenever one of them is not-a-number. -/
def le : Float64 → Float64 → Bool
  | num a e, num b f => decide (a * 2 ^ f ≤ b * 2 ^ e)
  | Inf true, num _ _ => true
  | Inf true, Inf _ => true
  | num _ _, Inf false => true
  | Inf false, Inf false => true
  | _, _ => false

end Float64

/-- The constant `DefaultAlpha` (hybrid.go:20): 0.75, the number `3 / 2^2`. -/
def DefaultAlpha : Float64 := Float64.num 3 2

/-- The constant `HybridRankedFusion` (hybrid.go:22). -/
def HybridRankedFusion : Int := 0

/-- The constant `HybridRelativeScoreFusion` (hybrid.go:23). -/
def HybridRelativeScoreFusion : Int := 1

/-- The constant `HybridFusionDefault` (hybrid.go:25). -/
def HybridFusionDefault : Int := HybridRelativeScoreFusion

/-- A value held by an `interface{}`: nil, or a value of a dynamic type. -/
inductive Value where
  | nil : Value
  | float64 (x : Float64) : Value
  | int (n : Int) : Value
  | string (s : String) : Value
  | bool (b : Bool) : Value
  | slice (xs : List Value) : Value
  | map (m : List (String × Value)) : Value
  | other (dynamicType : String) : Value

/-- Go's `map[string]interface{}`, as the list of its entries; a key is looked up from the
front. -/
abbrev Map := List (String × Value)

/-- The comparison `v == nil` of an `interface{}`. -/
def Value.isNil : Value → Bool
  | Value.nil => true
  | _ => false

/-- The index expression `m[key]`: nil when the key is absent. -/
def index (m : Map) (key : String) : Value :=
  (m.lookup key).getD Value.nil

/-- A run-time panic of `ExtractHybridSearch`: a failed type assertion `v.(T)` or an index out
of range. -/
inductive Panic where
  | typeAssertion (want : String) : Panic
  | indexOutOfRange : Panic
deriving DecidableEq, Repr

/-- The type assertion `v.([]interface{})`. -/
def asSlice : Value → Except Panic (List Value)
  | Value.slice xs => Except.ok xs
  | _ => Except.error (Panic.typeAssertion "[]interface")

/-- The type assertion `v.(map[string]interface{})`. -/
def asMap : Value → Except Panic Map
  | Value.map m => Except.ok m
  | _ => Except.error (Panic.typeAssertion "map[string]interface")

/-- The type assertion `v.(float64)`. -/
def asFloat64 : Value → Except Panic Float64
  | Value.float64 x => Except.ok x
  | _ => Except.error (Panic.typeAssertion "float64")

/-- The type assertion `v.(string)`. -/
def asString : Value → Except Panic String
  | Value.string s => Except.ok s
  | _ => Except.error (Panic.typeAssertion "string")

/-- The type assertion `v.(int)`. -/
def asInt : Value → Except Panic Int
  | Value.int n => Except.ok n
  | _ => Except.error (Panic.typeAssertion "int")

/-- A loop that makes one type assertion per element of a slice and collects the results. -/
def assertEach {α : Type} (assert : Value → Except Panic α) :
    List Value → Except Panic (List α)
  | [] => Except.ok []
  | v :: rest =>
    match assert v with
    | Except.error p => Except.error p
    | Except.ok a =>
      match assertEach assert rest with
      | Except.error p => Except.error p
      | Except.ok as => Except.ok (a :: as)

/-- What `ExtractHybridSearch` uses and is not among the sources, taken as parameters: the
functions `ExtractNearText`, `ExtractNearVector` and `ExtractBM25` of the package, with the types
`NT`, `NV` and `KW` of the parameters that they return (their errors are dropped by the caller,
and they are taken to return); the conversion `float32(x)`, as the `float64` of the same value;
and the text that `fmt` gives for a map under `%+v`. -/
structure Helpers (NT NV KW : Type) where
  ExtractNearText : Map → NT
  ExtractNearVector : Map → NV
  ExtractBM25 : Map → Bool → KW
  float32 : Float64 → Float64
  format : Map → String

/-- The field `SearchParams` of a `searchparams.WeightedSearchResult`: the parameters of one of
the three kinds of subsearch. -/
inductive SearchParams (NT NV KW : Type) where
  | bm25 (arguments : KW) : SearchParams NT NV KW
  | nearText (arguments : NT) : SearchParams NT NV KW
  | nearVector (arguments : NV) : SearchParams NT NV KW
deriving DecidableEq

/-- Modelled from the spec: the type `searchparams.WeightedSearchResult` of
`entities/searchparams`, which is not among the sources: the fields that `ExtractHybridSearch`
sets (`Type_` is the field `Type`). -/
structure WeightedSearchResult (NT NV KW : Type) where
  SearchParams : SearchParams NT NV KW
  Weight : Float64
  Type_ : String
deriving DecidableEq

/-- Modelled from the spec: the type `searchparams.HybridSearch` of `entities/searchparams`, which
is not among the sources: the fields that `ExtractHybridSearch` sets (`Type_` is the field
`Type`).  A slice or pointer field that may be nil is an `Option`, `none` for nil. -/
structure HybridSearch (NT NV KW : Type) where
  SubSearches : List (WeightedSearchResult NT NV KW)
  Type_ : String
  Alpha : Float64
  Query : String
  Vector : Option (List Float64)
  Properties : Option (List String)
  TargetVectors : Option (List String)
  FusionAlgorithm : Int
  NearTextParams : Option NT
  NearVectorParams : Option NV
deriving DecidableEq

section

variable {NT NV KW : Type} (x : Helpers NT NV KW)

/-- The lines 28-36 of hybrid.go: the slice `subsearches`. -/
def operands (source : Map) : Except Panic (List Map) :=
  let operandsI := index source "operands"
  if operandsI.isNil then Except.ok []
  else
    match asSlice operandsI with
    | Except.error p => Except.error p
    | Except.ok operands => assertEach asMap operands

/-- The lines 43-48 and 50-55 of hybrid.go: the parameters extracted from the entry `key` of
`namedSearches` when it is not nil. -/
def namedSearch {α : Type} (extract : Map → α) (namedSearches : Map) (key : String) :
    Except Panic (Option α) :=
  if (index namedSearches key).isNil then Except.ok none
  else
    match asMap (index namedSearches key) with
    | Except.error p => Except.error p
    | Except.ok near => Except.ok (some (extract near))

/-- The lines 38-56 of hybrid.go: the fields `NearTextParams` and `NearVectorParams`. -/
def namedSearches (source : Map) : Except Panic (Option NT × Option NV) :=
  let namedSearchesI := index source "searches"
  if namedSearchesI.isNil then Except.ok (none, none)
  else
    match asSlice namedSearchesI with
    | Except.error p => Except.error p
    | Except.ok [] => Except.error Panic.indexOutOfRange
    | Except.ok (first :: _) =>
      match asMap first with
      | Except.error p => Except.error p
      | Except.ok namedSearches =>
        match namedSearch x.ExtractNearText namedSearches "nearText" with
        | Except.error p => Except.error p
        | Except.ok nearTextParams =>
          match namedSearch x.ExtractNearVector namedSearches "nearVector" with
          | Except.error p => Except.error p
          | Except.ok nearVectorParams => Except.ok (nearTextParams, nearVectorParams)

/-- One case of the switch of hybrid.go:62-94: the entry `key` of the subsearch is asserted to
be a map, the parameters are extracted from it, the entry "weight" is asserted to be a
`float64`. -/
def weighted (subsearch : Map) (key : String) (extract : Map → SearchParams NT NV KW)
    (typ : String) : Except Panic (WeightedSearchResult NT NV KW) :=
  match asMap (index subsearch key) with
  | Except.error p => Except.error p
  | Except.ok near =>
    match asFloat64 (index subsearch "weight") with
    | Except.error p => Except.error p
    | Except.ok weight =>
      Except.ok { SearchParams := extract near, Weight := weight, Type_ := typ }

/-- The body of the loop of hybrid.go:60-95 for one subsearch: a panic, the error of the
default case, or the weighted search result to append. -/
def subSearch (explainScore : Bool) (subsearch : Map) :
    Except Panic (Except String (WeightedSearchResult NT NV KW)) :=
  if !(index subsearch "sparseSearch").isNil then
    (weighted subsearch "sparseSearch"
      (fun bm25 => SearchParams.bm25 (x.ExtractBM25 bm25 explainScore)) "bm25").map Except.ok
  else if !(index subsearch "nearText").isNil then
    (weighted subsearch "nearText"
      (fun nearText => SearchParams.nearText (x.ExtractNearText nearText)) "nearText").map
      Except.ok
  else if !(index subsearch "nearVector").isNil then
    (weighted subsearch "nearVector"
      (fun nearVector => SearchParams.nearVector (x.ExtractNearVector nearVector))
      "nearVector").map Except.ok
  else Except.ok (Except.error ("unknown subsearch type: " ++ x.format subsearch))

/-- The loop of hybrid.go:60-95 from the results appended so far. -/
def subSearches (explainScore : Bool) :
    List Map → List (WeightedSearchResult NT NV KW) →
      Except Panic (Except String (List (WeightedSearchResult NT NV KW)))
  | [], weightedSearchResults => Except.ok (Except.ok weightedSearchResults)
  | subsearch :: rest, weightedSearchResults =>
    match subSearch x explainScore subsearch with
    | Except.error p => Except.error p
    | Except.ok (Except.error err) => Except.ok (Except.error err)
    | Except.ok (Except.ok w) => subSearches explainScore rest (weightedSearchResults ++ [w])

/-- The lines 99-104 of hybrid.go: the field `Alpha`. -/
def extractAlpha (source : Map) : Except Panic Float64 :=
  match source.lookup "alpha" with
  | some alpha => asFloat64 alpha
  | none => Except.ok DefaultAlpha

/-- The lines 110-113 of hybrid.go: the field `Query`. -/
def extractQuery (source : Map) : Except Panic String :=
  match source.lookup "query" with
  | some query => asString query
  | none => Except.ok ""

/-- The lines 115-120 of hybrid.go: the field `FusionAlgorithm`. -/
def extractFusionType (source : Map) : Except Panic Int :=
  match source.lookup "fusionType" with
  | some fusionType => asInt fusionType
  | none => Except.ok HybridFusionDefault

/-- The lines 121-127 of hybrid.go: the field `Vector`. -/
def extractVector (source : Map) : Except Panic (Option (List Float64)) :=
  match source.lookup "vector" with
  | none => Except.ok none
  | some v =>
    match asSlice v with
    | Except.error p => Except.error p
    | Except.ok vector =>
      match assertEach asFloat64 vector with
      | Except.error p => Except.error p
      | Except.ok values => Except.ok (some (values.map x.float32))

/-- The lines 129-135 and 137-143 of hybrid.go: the fields `Properties` and `TargetVectors`. -/
def extractStrings (source : Map) (key : String) : Except Panic (Option (List String)) :=
  match source.lookup key with
  | none => Except.ok none
  | some v =>
    match asSlice v with
    | Except.error p => Except.error p
    | Except.ok values =>
      match assertEach asString values with
      | Except.error p => Except.error p
      | Except.ok strings => Except.ok (some strings)

/-- The lines 145-157 of hybrid.go: the three checks on the filled `args` and the return. -/
def checked (args : HybridSearch NT NV KW) : Option (HybridSearch NT NV KW) × Option String :=
  if args.NearTextParams.isSome && args.NearVectorParams.isSome then
    (none, some "hybrid search cannot have both nearText and nearVector parameters")
  else if args.Vector.isSome && args.NearTextParams.isSome then
    (none, some "cannot have both vector and nearTextParams")
  else if args.Vector.isSome && args.NearVectorParams.isSome then
    (none, some "cannot have both vector and nearVectorParams")
  else (some args, none)

/-- The lines 110-157 of hybrid.go: what follows the check of `Alpha`. -/
def afterAlpha (source : Map) (near : Option NT × Option NV)
    (weightedSearchResults : List (WeightedSearchResult NT NV KW)) (alpha : Float64) :
    Except Panic (Option (HybridSearch NT NV KW) × Option String) :=
  match extractQuery source with
  | Except.error p => Except.error p
  | Except.ok query =>
    match extractFusionType source with
    | Except.error p => Except.error p
    | Except.ok fusionType =>
      match extractVector x source with
      | Except.error p => Except.error p
      | Except.ok vector =>
        match extractStrings source "properties" with
        | Except.error p => Except.error p
        | Except.ok properties =>
          match extractStrings source "targetVectors" with
          | Except.error p => Except.error p
          | Except.ok targetVectors =>
            Except.ok (checked
              { SubSearches := weightedSearchResults, Type_ := "hybrid", Alpha := alpha,
                Query := query, Vector := vector, Properties := properties,
                TargetVectors := targetVectors, FusionAlgorithm := fusionType,
                NearTextParams := near.1, NearVectorParams := near.2 })

/-- The function `ExtractHybridSearch` (hybrid.go:27): a panic, or the returned pair of the
result (`none` for nil) and the error (`none` for nil, else its message). -/
def ExtractHybridSearch (source : Map) (explainScore : Bool) :
    Except Panic (Option (HybridSearch NT NV KW) × Option String) :=
  match operands source with
  | Except.error p => Except.error p
  | Except.ok subsearches =>
    match namedSearches x source with
    | Except.error p => Except.error p
    | Except.ok near =>
      match subSearches x explainScore subsearches [] with
      | Except.error p => Except.error p
      | Except.ok (Except.error err) => Except.ok (none, some err)
      | Except.ok (Except.ok weightedSearchResults) =>
        match extractAlpha source with
        | Except.error p => Except.error p
        | Except.ok alpha =>
          if alpha.lt (Float64.num 0 0) || (Float64.num 1 0).lt alpha then
            Except.ok (none, some "alpha should be between 0.0 and 1.0")
          else afterAlpha x source near weightedSearchResults alpha

end

/-- Helpers for the runs that are evaluated: the extracted parameters carry nothing, `float32`
keeps the value, and a map is printed as "map[...]". -/
def plainHelpers : Helpers Unit Unit Unit :=
  { ExtractNearText := fun _ => (), ExtractNearVector := fun _ => (),
    ExtractBM25 := fun _ _ => (), float32 := fun v => v, format := fun _ => "map[...]" }

/-- A "vector" entry is supplied: the key "vector" is present in the source map. -/
def hasVector (source : Map) : Bool := (source.lookup "vector").isSome

/-- A named search `key` ("nearText" or "nearVector") is supplied in the first element of
"searches": the entry "searches" is a slice whose first element is a map with a non-nil entry
`key`. -/
def hasNamed (source : Map) (key : String) : Bool :=
  match index source "searches" with
  | Value.slice (Value.map namedSearches :: _) => !(index namedSearches key).isNil
  | _ => false

/-- An operand of unknown type: a map with none of the entries "sparseSearch", "nearText" and
"nearVector". -/
def unknownOperand (operand : Map) : Bool :=
  (index operand "sparseSearch").isNil && (index operand "nearText").isNil &&
    (index operand "nearVector").isNil

/-- A source map with a "vector" entry, a nearText in the first element of "searches", and a
"query" entry that is an integer. -/
def vectorAndNearText : Map :=
  [("vector", Value.slice [Value.float64 (Float64.num 1 1)]),
   ("searches", Value.slice [Value.map [("nearText", Value.map [])]]),
   ("query", Value.int 7)]

/-- A source map with an operand of unknown type and the alpha 2. -/
def unknownOperandAlphaTwo : Map :=
  [("operands", Value.slice [Value.map [("weight", Value.float64 (Float64.num 1 0))]]),
   ("alpha", Value.float64 (Float64.num 2 0))]

/-- A source map whose alpha is not-a-number. -/
def alphaNaN : Map := [("alpha", Value.float64 Float64.NaN)]

/-- A source map with the alpha 0.25 and the fusion type 0. -/
def alphaQuarter : Map :=
  [("alpha", Value.float64 (Float64.num 1 2)), ("fusionType", Value.int 0),
   ("query", Value.string "fruit")]

/-- The result for `alphaQuarter`. -/
def alphaQuarterResult : HybridSearch Unit Unit Unit :=
  { SubSearches := [], Type_ := "hybrid", Alpha := Float64.num 1 2, Query := "fruit",
    Vector := none, Properties := none, TargetVectors := none, FusionAlgorithm := 0,
    NearTextParams := none, NearVectorParams := none }

/-- The result for `alphaNaN`. -/
def alphaNaNResult : HybridSearch Unit Unit Unit :=
  { SubSearches := [], Type_ := "hybrid", Alpha := Float64.NaN, Query := "",
    Vector := none, Properties := none, TargetVectors := none, FusionAlgorithm := 1,
    NearTextParams := none, NearVectorParams := none }

/-- A source map with a "vector" entry and nothing else. -/
def vectorOnly : Map := [("vector", Value.slice [Value.float64 (Float64.num 1 1)])]

/-- The result for `vectorOnly`. -/
def vectorOnlyResult : HybridSearch Unit Unit Unit :=
  { SubSearches := [], Type_ := "hybrid", Alpha := DefaultAlpha, Query := "",
    Vector := some [Float64.num 1 1], Properties := none, TargetVectors := none,
    FusionAlgorithm := 1, NearTextParams := none, NearVectorParams := none }

/-- A source map with a "vector" entry and a nearVector in the first element of "searches". -/
def vectorAndNearVector : Map :=
  [("vector", Value.slice [Value.float64 (Float64.num 1 1)]),
   ("searches", Value.slice [Value.map [("nearVector", Value.map [])]])]

end common_filters

/-! ## Theorems

### Byte-wise comparison
-/

namespace lsmkv
namespace bytes

theorem Compare_self (a : Bytes) : Compare a a = 0 := by
  induction a with
  | nil => rfl
  | cons x xs ih => simp [Compare, ih]

theorem eq_of_Compare_eq_zero : ∀ (a b : Bytes), Compare a b = 0 → a = b
  | [], [], _ => rfl
  | [], _ :: _, h => by simp [Compare] at h
  | _ :: _, [], h => by simp [Compare] at h
  | x :: xs, y :: ys, h => by
    unfold Compare at h
    split_ifs at h with h1 h2
    all_goals first
      | omega
      | (have hxy : x = y := Fin.ext (by omega)
         rw [hxy, eq_of_Compare_eq_zero xs ys h])

theorem Compare_swap : ∀ (a b : Bytes), Compare b a = - Compare a b
  | [], [] => rfl
  | [], _ :: _ => rfl
  | _ :: _, [] => rfl
  | x :: xs, y :: ys => by
    unfold Compare
    split_ifs <;> first | omega | rfl | exact Compare_swap xs ys

theorem Compare_le_trans :
    ∀ (a b c : Bytes), Compare a b ≤ 0 → Compare b c ≤ 0 → Compare a c ≤ 0
  | [], [], c, _, h => h
  | [], _ :: _, [], _, h => by simp [Compare] at h
  | [], _ :: _, _ :: _, _, _ => by simp [Compare]
  | _ :: _, [], _, h, _ => by simp [Compare] at h
  | _ :: _, _ :: _, [], _, h => by simp [Compare] at h
  | x :: xs, y :: ys, z :: zs, h1, h2 => by
    unfold Compare at h1 h2 ⊢
    split_ifs at h1 h2 ⊢ <;> first | omega | exact Compare_le_trans xs ys zs h1 h2

end bytes
end lsmkv

/-! ### The ordered buffer and the point operations of the memtable -/

namespace lsmkv

theorem binarySearchNode.get_insert_self (k v : Bytes) (t : binarySearchNode) :
    (t.insert k v).get k = some v := by
  induction t with
  | nil => simp [binarySearchNode.insert, binarySearchNode.get, bytes.Compare_self]
  | node k0 v0 l r ihl ihr =>
    unfold binarySearchNode.insert
    split_ifs with h1 h2
    · simp [binarySearchNode.get, h1]
    · simp [binarySearchNode.get, h1, h2, ihl]
    · simp [binarySearchNode.get, h1, h2, ihr]

theorem binarySearchNode.get_insert_other (k k1 v : Bytes) (t : binarySearchNode) (h : k1 ≠ k) :
    (t.insert k1 v).get k = t.get k := by
  have hne : bytes.Compare k k1 ≠ 0 := fun h0 => h (bytes.eq_of_Compare_eq_zero k k1 h0).symm
  induction t with
  | nil => simp [binarySearchNode.insert, binarySearchNode.get, hne]
  | node k0 v0 l r ihl ihr =>
    unfold binarySearchNode.insert
    split_ifs with h1 h2
    · have h10 : k1 = k0 := bytes.eq_of_Compare_eq_zero k1 k0 h1
      subst h10
      simp [binarySearchNode.get, hne]
    · simp only [binarySearchNode.get, ihl]
    · simp only [binarySearchNode.get, ihr]

theorem Memtable.get_put_self (l : Memtable) (k v : Bytes) :
    (l.put k v).1.get k = (some v, none) := by
  simp [Memtable.get, Memtable.put, binarySearchTree.get, binarySearchTree.insert,
    binarySearchNode.get_insert_self]

theorem Memtable.get_put_other (l : Memtable) (k k1 v : Bytes) (h : k1 ≠ k) :
    (l.put k1 v).1.get k = l.get k := by
  simp [Memtable.get, Memtable.put, binarySearchTree.get, binarySearchTree.insert,
    binarySearchNode.get_insert_other k k1 v _ h]

theorem get_putAll_other (k : Bytes) (ps : List (Bytes × Bytes)) (h : ∀ p ∈ ps, p.1 ≠ k) :
    ∀ l : Memtable, (putAll l ps).get k = l.get k := by
  induction ps with
  | nil => intro l; rfl
  | cons p ps ih =>
    intro l
    have hp : p.1 ≠ k := h p (List.mem_cons_self _ _)
    have hps : ∀ q ∈ ps, q.1 ≠ k := fun q hq => h q (List.mem_cons_of_mem _ hq)
    show (putAll (l.put p.1 p.2).1 ps).get k = l.get k
    rw [ih hps, Memtable.get_put_other l k p.1 p.2 hp]

/-- C8. Last write wins: from every memtable state, after `put(k, v1)`, then any puts `ps`, then
`put(k, v2)`, then puts `qs` to keys other than `k`, `get(k)` returns `v2` with a nil error; and a
`put` to a key `k1` other than `k` leaves the result of `get(k)` as it was. -/
theorem overwrite_last_write_wins (l : Memtable) (k v1 v2 : Bytes) (ps qs : List (Bytes × Bytes))
    (hqs : ∀ q ∈ qs, q.1 ≠ k) :
    (putAll ((putAll (l.put k v1).1 ps).put k v2).1 qs).get k = (some v2, none) ∧
    ∀ (k1 v : Bytes), k1 ≠ k → (l.put k1 v).1.get k = l.get k := by
  refine ⟨?_, fun k1 v h => Memtable.get_put_other l k k1 v h⟩
  rw [get_putAll_other k qs hqs, Memtable.get_put_self]

/-- Witness of C8: "red" then "green" are put under "apple", with puts to "banana" in between
and afterwards. -/
theorem overwrite_last_write_wins_witness :
    (∀ q ∈ [(banana, yellow)], q.1 ≠ apple) ∧
    (putAll ((putAll ((newMemtable "segment").put apple red).1 [(banana, red)]).put apple
        [103, 114, 101, 101, 110]).1 [(banana, yellow)]).get apple =
      (some [103, 114, 101, 101, 110], none) ∧
    ((newMemtable "segment").put banana yellow).1.get apple = (newMemtable "segment").get apple :=
  ⟨by decide,
    (overwrite_last_write_wins (newMemtable "segment") apple red [103, 114, 101, 101, 110]
      [(banana, red)] [(banana, yellow)] (by decide)).1,
    (overwrite_last_write_wins (newMemtable "segment") apple red [103, 114, 101, 101, 110]
      [(banana, red)] [(banana, yellow)] (by decide)).2 banana yellow (by decide)⟩

/-- C9. Absence: on a memtable made by `newMemtable` and filled by puts none of which uses the
key `k`, `get(k)` returns a nil value with the error `NotFound`; and on every memtable `get(k)`
returns `NotFound` exactly when the lookup in the buffer reports `k` absent, and otherwise the
stored value with a nil error. -/
theorem absent_key_not_found (path : String) (k : Bytes) (ps : List (Bytes × Bytes))
    (hps : ∀ p ∈ ps, p.1 ≠ k) :
    (putAll (newMemtable path) ps).get k = (none, some Error.NotFound) ∧
    (∀ l : Memtable, (l.get k).2 = some Error.NotFound ↔ l.key.get k = none) ∧
    (∀ (l : Memtable) (v : Bytes), l.key.get k = some v → l.get k = (some v, none)) := by
  refine ⟨?_, ?_, ?_⟩
  · rw [get_putAll_other k ps hps]
    rfl
  · intro l
    unfold Memtable.get
    cases l.key.get k <;> simp
  · intro l v h
    simp [Memtable.get, h]

/-- Witness of C9: "banana" was put and "apple" is looked up; in the memtable holding both,
"apple" is found. -/
theorem absent_key_not_found_witness :
    (∀ p ∈ [(banana, yellow)], p.1 ≠ apple) ∧
    (putAll (newMemtable "segment") [(banana, yellow)]).get apple =
      (none, some Error.NotFound) ∧
    ((fruits.get apple).2 = some Error.NotFound ↔ fruits.key.get apple = none) ∧
    fruits.get apple = (some red, none) :=
  ⟨by decide,
    (absent_key_not_found "segment" apple [(banana, yellow)] (by decide)).1,
    (absent_key_not_found "segment" apple [(banana, yellow)] (by decide)).2.1 fruits,
    (absent_key_not_found "segment" apple [(banana, yellow)] (by decide)).2.2 fruits red
      (by decide)⟩

/-! ### The size counter -/

theorem Memtable.size_put (l : Memtable) (k v : Bytes) :
    (l.put k v).1.Size = (l.Size + k.length + v.length) % 2 ^ 64 := by
  simp [Memtable.put, Memtable.Size, addUint64, Nat.add_mod]

theorem size_putAll (ps : List (Bytes × Bytes)) :
    ∀ l : Memtable, l.Size < 2 ^ 64 → (putAll l ps).Size = (l.Size + putBytes ps) % 2 ^ 64 := by
  induction ps with
  | nil =>
    intro l hl
    show l.Size = (l.Size + 0) % 2 ^ 64
    rw [Nat.add_zero, Nat.mod_eq_of_lt hl]
  | cons p ps ih =>
    intro l _
    have hlt : (l.put p.1 p.2).1.Size < 2 ^ 64 := by
      rw [Memtable.size_put]
      exact Nat.mod_lt _ (by norm_num)
    show (putAll (l.put p.1 p.2).1 ps).Size = _
    rw [ih _ hlt, Memtable.size_put]
    simp only [putBytes, List.map_cons, List.sum_cons]
    omega

theorem size_put_of_length (l : Memtable) (k v : Bytes) (s a b : Nat) (hs : l.Size = s)
    (ha : k.length = a) (hb : v.length = b) : (l.put k v).1.Size = (s + a + b) % 2 ^ 64 := by
  rw [Memtable.size_put, hs, ha, hb]

theorem size_putAll_replicate (n : Nat) (k v : Bytes) (a b : Nat) (ha : k.length = a)
    (hb : v.length = b) (l : Memtable) (hl : l.Size < 2 ^ 64) :
    (putAll l (List.replicate n (k, v))).Size = (l.Size + n * (a + b)) % 2 ^ 64 := by
  rw [size_putAll _ l hl]
  simp [putBytes, ha, hb]

theorem size_runOps (ops : List Op) :
    ∀ l : Memtable, l.Size < 2 ^ 64 →
      (runOps l ops).Size = (l.Size + opBytes ops) % 2 ^ 64 := by
  induction ops with
  | nil =>
    intro l hl
    show l.Size = (l.Size + 0) % 2 ^ 64
    rw [Nat.add_zero, Nat.mod_eq_of_lt hl]
  | cons op ops ih =>
    intro l hl
    cases op with
    | put key value =>
      have hlt : (l.put key value).1.Size < 2 ^ 64 := by
        rw [Memtable.size_put]
        exact Nat.mod_lt _ (by norm_num)
      show (runOps (l.put key value).1 ops).Size = _
      rw [ih _ hlt, Memtable.size_put]
      simp only [opBytes]
      omega
    | get key => exact ih l hl
    | Size => exact ih l hl

/-- C7, as amended. For every memtable state, key and value, `put(key, value)` makes `Size()`
the sum of the former `Size()`, `len(key)` and `len(value)` modulo `2^64`, whether or not the key
was present; it is that sum itself when the sum is below `2^64`.  So after any sequence `ops` of
calls of `put`, `get` and `Size` on a memtable made by `newMemtable`, `Size()` is the sum of
`len(key) + len(value)` over the puts of `ops` modulo `2^64`; and while that sum, the next put
included, is below `2^64`, the next put increases `Size()` by exactly `len(key) + len(value)`, so
`Size()` does not decrease.  `get` and `Size` leave the counter as it was. -/
theorem size_accounting (l : Memtable) (key value : Bytes) :
    (l.put key value).1.Size = (l.Size + key.length + value.length) % 2 ^ 64 ∧
    (l.Size + key.length + value.length < 2 ^ 64 →
      (l.put key value).1.Size = l.Size + key.length + value.length) ∧
    (∀ (path : String) (ops : List Op),
      (runOps (newMemtable path) ops).Size = opBytes ops % 2 ^ 64) ∧
    (∀ (path : String) (ops : List Op),
      opBytes ops + key.length + value.length < 2 ^ 64 →
      ((runOps (newMemtable path) ops).put key value).1.Size =
          (runOps (newMemtable path) ops).Size + key.length + value.length ∧
        (runOps (newMemtable path) ops).Size ≤
          ((runOps (newMemtable path) ops).put key value).1.Size) ∧
    (step l (Op.get key)).Size = l.Size ∧ (step l Op.Size).Size = l.Size := by
  have h0 : ∀ path : String, (newMemtable path).Size < 2 ^ 64 := fun path => by
    simp [newMemtable, Memtable.Size]
  have hnew : ∀ (path : String) (ops : List Op),
      (runOps (newMemtable path) ops).Size = opBytes ops % 2 ^ 64 := fun path ops => by
    rw [size_runOps ops _ (h0 path)]
    simp [newMemtable, Memtable.Size]
  refine ⟨Memtable.size_put l key value, ?_, hnew, ?_, rfl, rfl⟩
  · intro hlt
    rw [Memtable.size_put, Nat.mod_eq_of_lt hlt]
  intro path ops hlt
  rw [Memtable.size_put, hnew]
  have h1 : opBytes ops % 2 ^ 64 = opBytes ops := Nat.mod_eq_of_lt (by omega)
  rw [h1, Nat.mod_eq_of_lt hlt]
  omega

/-- Witness of C7, as amended: after the put of ("banana", "yellow") and a `get`, the put of
("apple", "red") takes `Size()` from 12 to 20. -/
theorem size_accounting_witness :
    opBytes [Op.put banana yellow, Op.get apple] + apple.length + red.length < 2 ^ 64 ∧
    (runOps (newMemtable "segment") [Op.put banana yellow, Op.get apple]).Size = 12 ∧
    ((runOps (newMemtable "segment") [Op.put banana yellow, Op.get apple]).put apple red).1.Size =
      12 + 5 + 3 :=
  ⟨by decide,
    ((size_accounting (newMemtable "segment") apple red).2.2.1 "segment"
      [Op.put banana yellow, Op.get apple]).trans (by decide),
    (((size_accounting (newMemtable "segment") apple red).2.2.2.1 "segment"
      [Op.put banana yellow, Op.get apple] (by decide)).1).trans (by decide)⟩

theorem bigValue_length : bigValue.length = 2 ^ 32 := by
  simp only [bigValue, List.length_replicate]

theorem size_wrapPuts : (putAll (newMemtable "seg") wrapPuts).Size = 2 ^ 64 - 2 ^ 32 :=
  (size_putAll_replicate (2 ^ 32 - 1) [] bigValue 0 (2 ^ 32) rfl bigValue_length
    (newMemtable "seg") (by decide)).trans (by decide)

/-- C7 as stated fails: after `2^32 - 1` puts of a value of `2^32` bytes under the empty key, one
more such put makes `Size()` go from `2^64 - 2^32` down to 0. -/
theorem size_decreases_on_wrap :
    (putAll (newMemtable "seg") wrapPuts).Size = 2 ^ 64 - 2 ^ 32 ∧
    ((putAll (newMemtable "seg") wrapPuts).put [] bigValue).1.Size = 0 ∧
    ¬ ((putAll (newMemtable "seg") wrapPuts).Size ≤
        ((putAll (newMemtable "seg") wrapPuts).put [] bigValue).1.Size) := by
  have hp : ((putAll (newMemtable "seg") wrapPuts).put [] bigValue).1.Size = 0 :=
    (size_put_of_length _ [] bigValue (2 ^ 64 - 2 ^ 32) 0 (2 ^ 32) size_wrapPuts rfl
      bigValue_length).trans (by decide)
  refine ⟨size_wrapPuts, hp, ?_⟩
  rw [size_wrapPuts, hp]
  norm_num

/-! ### Machine integers and the little-endian encoding -/

theorem wrapInt_eq (x : Int) (h0 : -(2 ^ 63) ≤ x) (h1 : x < 2 ^ 63) : wrapInt x = x := by
  unfold wrapInt
  omega

theorem uint64_natCast (n : Nat) (h : n < 2 ^ 64) : uint64 (n : Int) = n := by
  unfold uint64
  omega

theorem totalValueSize_foldl (flat : List Entry) :
    ∀ acc : Nat, acc + valueBytes flat < 2 ^ 63 →
      flat.foldl (fun sum n => wrapInt (sum + n.value.length)) (acc : Int) =
        ((acc + valueBytes flat : Nat) : Int) := by
  induction flat with
  | nil => intro acc _; simp [valueBytes]
  | cons e rest ih =>
    intro acc h
    have hv : valueBytes (e :: rest) = e.value.length + valueBytes rest := by
      simp [valueBytes]
    rw [hv] at h ⊢
    have hw : wrapInt ((acc : Int) + (e.value.length : Int)) =
        ((acc + e.value.length : Nat) : Int) := by
      rw [wrapInt_eq] <;> omega
    rw [List.foldl_cons, hw, ih (acc + e.value.length) (by omega), Nat.add_assoc]

theorem totalValueSize_eq (flat : List Entry) (h : valueBytes flat < 2 ^ 63) :
    totalValueSize flat = (valueBytes flat : Int) := by
  have := totalValueSize_foldl flat 0 (by omega)
  simpa [totalValueSize] using this

theorem length_littleEndian (size : Nat) : ∀ x : Nat, (littleEndian size x).length = size := by
  induction size with
  | zero => intro x; rfl
  | succ n ih => intro x; simp [littleEndian, ih]

theorem fromLittleEndian_littleEndian (size : Nat) :
    ∀ x : Nat, fromLittleEndian (littleEndian size x) = x % 256 ^ size := by
  induction size with
  | zero => intro x; simp [littleEndian, fromLittleEndian, Nat.mod_one]
  | succ n ih =>
    intro x
    simp only [littleEndian, fromLittleEndian, ih]
    rw [pow_succ, Nat.mul_comm (256 ^ n) 256, Nat.mod_mul]

theorem fromLittleEndian_littleEndian_eight (x : Nat) (h : x < 2 ^ 64) :
    fromLittleEndian (littleEndian 8 x) = x := by
  rw [fromLittleEndian_littleEndian]
  exact Nat.mod_eq_of_lt (by norm_num at h ⊢; exact h)

/-- The digest of "hello", one of the test vectors of the library. -/
theorem murmur3.Sum128_hello :
    murmur3.Sum128 [104, 101, 108, 108, 111] =
      [0xcb, 0xd8, 0xa7, 0xb3, 0x41, 0xbd, 0x9b, 0x02,
       0x5b, 0x1e, 0x90, 0x6a, 0x48, 0xae, 0x1d, 0x19] := by
  decide

theorem murmur3.length_Sum128 (data : Bytes) : (murmur3.Sum128 data).length = 16 := by
  simp [murmur3.Sum128, murmur3.be64]

/-! ### Slices of a byte string -/

theorem slice_append_right (a b : Bytes) (n : Nat) (h : n = a.length + b.length) :
    slice (a ++ b) a.length n = b := by
  subst h
  simp [slice]

theorem slice_prefix_append (a b c : Bytes) (i j : Nat) (hi : i = a.length)
    (hj : j = a.length + b.length) : slice (a ++ b ++ c) i j = b := by
  subst hi hj
  simp [slice, List.append_assoc]

/-! ### Writes that succeed in full -/

theorem File.Write_ok (env : Faults) (f : File) (p : Bytes) (hf : f.data.length ≤ maxFileSize)
    (h : (f.Write env p).1.allOk = true) :
    f.allOk = true ∧ (f.Write env p).2.2 = none ∧ (f.Write env p).2.1 = p.length ∧
      (f.Write env p).1.data = f.data ++ p ∧ (f.Write env p).1.data.length ≤ maxFileSize := by
  unfold File.Write at h ⊢
  cases henv : env f.calls.length with
  | some ke =>
    simp [henv, File.allOk, WriteCall.ok, List.all_append] at h
  | none =>
    by_cases hroom : p.length ≤ maxFileSize - f.data.length
    · simp only [henv, hroom, if_true, File.allOk, List.all_append, Bool.and_eq_true] at h ⊢
      refine ⟨h.1, trivial, trivial, ?_, ?_⟩
      · simp
      · simp only [List.take_length, List.length_append]
        omega
    · simp [henv, hroom, File.allOk, WriteCall.ok, List.all_append] at h

theorem binaryWrite_ok (env : Faults) (f : File) (size x : Nat)
    (hf : f.data.length ≤ maxFileSize) (h : (binary.Write env f size x).1.allOk = true) :
    f.allOk = true ∧ (binary.Write env f size x).2 = none ∧
      (binary.Write env f size x).1.data = f.data ++ littleEndian size x ∧
      (binary.Write env f size x).1.data.length ≤ maxFileSize := by
  have := File.Write_ok env f (littleEndian size x) hf h
  exact ⟨this.1, this.2.1, this.2.2.2.1, this.2.2.2.2⟩

theorem File.allOk_of_Write (env : Faults) (f : File) (p : Bytes)
    (h : (f.Write env p).1.allOk = true) : f.allOk = true := by
  simp only [File.Write, File.allOk, List.all_append, Bool.and_eq_true] at h ⊢
  exact h.1

theorem allOk_of_binaryWrite (env : Faults) (f : File) (size x : Nat)
    (h : (binary.Write env f size x).1.allOk = true) : f.allOk = true :=
  File.allOk_of_Write env f (littleEndian size x) h

theorem allOk_of_writeValues (env : Faults) :
    ∀ (flat : List Entry) (i : Nat) (f : File) (tw : Int) (keys : List keyIndex),
      (writeValues env flat i f tw keys).1.allOk = true → f.allOk = true := by
  intro flat
  induction flat with
  | nil => intro i f tw keys h; exact h
  | cons node rest ih =>
    intro i f tw keys h
    rcases hw : f.Write env node.value with ⟨f1, n, err⟩
    have h1 : f1.allOk = true := by
      cases err with
      | some e => simpa only [writeValues, hw] using h
      | none =>
        simp only [writeValues, hw] at h
        exact ih _ _ _ _ h
    have := File.allOk_of_Write env f node.value
    rw [hw] at this
    exact this h1

theorem valueBytes_cons (e : Entry) (rest : List Entry) :
    valueBytes (e :: rest) = e.value.length + valueBytes rest := by
  simp [valueBytes]

theorem writeValues_ok (env : Faults) :
    ∀ (flat : List Entry) (i : Nat) (f : File) (keys : List keyIndex),
      f.data.length ≤ maxFileSize →
      (writeValues env flat i f (f.data.length : Int) keys).1.allOk = true →
      f.allOk = true ∧
      (writeValues env flat i f (f.data.length : Int) keys).2 =
        Except.ok (keys ++ builtKeys flat f.data.length,
          ((f.data.length + valueBytes flat : Nat) : Int)) ∧
      (writeValues env flat i f (f.data.length : Int) keys).1.data =
        f.data ++ (flat.map Entry.value).flatten ∧
      (writeValues env flat i f (f.data.length : Int) keys).1.data.length ≤ maxFileSize := by
  intro flat
  induction flat with
  | nil =>
    intro i f keys hf h
    simp only [writeValues] at h ⊢
    simp [builtKeys, valueBytes, h, hf]
  | cons node rest ih =>
    intro i f keys hf h
    have hW := File.Write_ok env f node.value hf
    rcases hw : f.Write env node.value with ⟨f1, n, err⟩
    rw [hw] at hW
    simp only at hW
    cases err with
    | some e =>
      simp only [writeValues, hw] at h
      have := (hW h).2.1
      simp at this
    | none =>
      simp only [writeValues, hw] at h ⊢
      have h1 : f1.allOk = true := allOk_of_writeValues env _ _ _ _ _ h
      obtain ⟨hfa, -, hn, hd, hl⟩ := hW h1
      have htw : wrapInt ((f.data.length : Int) + (n : Int)) = (f1.data.length : Int) := by
        have hlen : f1.data.length = f.data.length + n := by rw [hd, hn]; simp
        have hmax : maxFileSize = 2 ^ 63 - 1 := rfl
        rw [wrapInt_eq] <;> omega
      rw [htw] at h ⊢
      obtain ⟨-, h2, h3, h4⟩ := ih (i + 1) f1 _ hl h
      refine ⟨hfa, ?_, ?_, h4⟩
      · rw [h2]
        have hlen : f1.data.length = f.data.length + node.value.length := by rw [hd]; simp
        simp only [builtKeys, valueBytes_cons, hn, hlen, List.append_assoc, List.singleton_append,
          Nat.add_assoc]
      · rw [h3, hd]
        simp

theorem allOk_of_writeIndex (env : Faults) :
    ∀ (keys : List keyIndex) (f : File),
      (writeIndex env keys f).1.allOk = true → f.allOk = true := by
  intro keys
  induction keys with
  | nil => intro f h; exact h
  | cons key rest ih =>
    intro f h
    rcases h2 : binary.Write env (f.Write env key.hash).1 8 (uint64 key.valueStart) with
      ⟨f2, e2⟩
    rcases h3 : binary.Write env f2 8 (uint64 key.valueEnd) with ⟨f3, e3⟩
    have m1 := File.allOk_of_Write env f key.hash
    have m2 := allOk_of_binaryWrite env (f.Write env key.hash).1 8 (uint64 key.valueStart)
    have m3 := allOk_of_binaryWrite env f2 8 (uint64 key.valueEnd)
    rw [h2] at m2
    rw [h3] at m3
    cases e2 with
    | some e =>
      simp only [writeIndex, h2] at h
      exact m1 (m2 h)
    | none =>
      cases e3 with
      | some e =>
        simp only [writeIndex, h2, h3] at h
        exact m1 (m2 (m3 h))
      | none =>
        simp only [writeIndex, h2, h3] at h
        exact m1 (m2 (m3 (ih f3 h)))

theorem writeIndex_ok (env : Faults) :
    ∀ (keys : List keyIndex) (f : File), f.data.length ≤ maxFileSize →
      (writeIndex env keys f).1.allOk = true →
      (writeIndex env keys f).2 = none ∧
      (writeIndex env keys f).1.data =
        f.data ++ (keys.map (fun k => encodeRecord (recordOf k))).flatten := by
  intro keys
  induction keys with
  | nil => intro f _ _; simp [writeIndex]
  | cons key rest ih =>
    intro f hf h
    rcases h2 : binary.Write env (f.Write env key.hash).1 8 (uint64 key.valueStart) with
      ⟨f2, e2⟩
    rcases h3 : binary.Write env f2 8 (uint64 key.valueEnd) with ⟨f3, e3⟩
    have m1 := File.Write_ok env f key.hash hf
    have m2 := allOk_of_binaryWrite env (f.Write env key.hash).1 8 (uint64 key.valueStart)
    have m3 := allOk_of_binaryWrite env f2 8 (uint64 key.valueEnd)
    have w2 := binaryWrite_ok env (f.Write env key.hash).1 8 (uint64 key.valueStart)
    have w3 := binaryWrite_ok env f2 8 (uint64 key.valueEnd)
    rw [h2] at m2 w2
    rw [h3] at m3 w3
    simp only at w2 w3
    have a2 : f2.allOk = true := by
      cases e2 with
      | some e => simpa only [writeIndex, h2] using h
      | none =>
        cases e3 with
        | some e =>
          simp only [writeIndex, h2, h3] at h
          exact m3 h
        | none =>
          simp only [writeIndex, h2, h3] at h
          exact m3 (allOk_of_writeIndex env rest f3 h)
    obtain ⟨-, -, -, d1, l1⟩ := m1 (m2 a2)
    obtain ⟨-, he2, d2, l2⟩ := w2 l1 a2
    subst he2
    have a3 : f3.allOk = true := by
      cases e3 with
      | some e => simpa only [writeIndex, h2, h3] using h
      | none =>
        simp only [writeIndex, h2, h3] at h
        exact allOk_of_writeIndex env rest f3 h
    obtain ⟨-, he3, d3, l3⟩ := w3 l2 a3
    subst he3
    simp only [writeIndex, h2, h3] at h ⊢
    obtain ⟨r1, r2⟩ := ih f3 l3 h
    refine ⟨r1, ?_⟩
    rw [r2, d3, d2, d1]
    simp [encodeRecord, recordOf, List.append_assoc]

theorem length_flatten_values (flat : List Entry) :
    ((flat.map Entry.value).flatten).length = valueBytes flat := by
  induction flat with
  | nil => rfl
  | cons e rest ih => simp [valueBytes_cons, ih]

/-- The bytes that a run of `flush` with every write written in full leaves in the file. -/
theorem flush_ok (env : Faults) (l : Memtable) (f : File)
    (hfile : (l.flush none env).file = some f) (hok : f.allOk = true) :
    (l.flush none env).err = none ∧
    10 + valueBytes l.key.flattenInOrder ≤ maxFileSize ∧
    f.data = littleEndian 2 0 ++ littleEndian 8 (10 + valueBytes l.key.flattenInOrder) ++
      (l.key.flattenInOrder.map Entry.value).flatten ++
      ((sort.Slice hashLess (builtKeys l.key.flattenInOrder 10)).map
        (fun k => encodeRecord (recordOf k))).flatten := by
  have hmax : maxFileSize = 2 ^ 63 - 1 := rfl
  have hW1 := binaryWrite_ok env { data := [], calls := [] } 2 0 (Nat.zero_le _)
  unfold Memtable.flush at hfile ⊢
  simp only at hfile ⊢
  generalize hip : addUint64 (uint64 (totalValueSize l.key.flattenInOrder)) 10 = indexPos
    at hfile ⊢
  generalize l.key.flattenInOrder = flat at hfile hip ⊢
  rcases h1 : binary.Write env { data := [], calls := [] } 2 0 with ⟨f1, e1⟩
  have hW2 := binaryWrite_ok env f1 8 indexPos
  have hM2 := allOk_of_binaryWrite env f1 8 indexPos
  rcases h2 : binary.Write env f1 8 indexPos with ⟨f2, e2⟩
  have hW3 := writeValues_ok env flat 0 f2 []
  have hM3 := allOk_of_writeValues env flat 0 f2 10 []
  rcases h3 : writeValues env flat 0 f2 10 [] with ⟨f3, r3⟩
  rw [h1] at hW1
  rw [h2] at hW2 hM2
  rw [h3] at hM3
  simp only at hW1 hW2 hM2 hM3
  cases e1 with
  | some e =>
    simp only [h1, Option.some.injEq] at hfile
    subst hfile
    have := (hW1 hok).2.1
    simp at this
  | none =>
    cases e2 with
    | some e =>
      simp only [h1, h2, Option.some.injEq] at hfile
      subst hfile
      obtain ⟨-, -, -, l1⟩ := hW1 (hM2 hok)
      have := (hW2 l1 hok).2.1
      simp at this
    | none =>
      have a3 : f3.allOk = true := by
        cases r3 with
        | error err =>
          simp only [h1, h2, h3, Option.some.injEq] at hfile
          rw [hfile]
          exact hok
        | ok p =>
          simp only [h1, h2, h3, Option.some.injEq] at hfile
          rw [← hfile] at hok
          exact allOk_of_writeIndex env _ _ hok
      have a2 := hM3 a3
      obtain ⟨-, -, d1, l1⟩ := hW1 (hM2 a2)
      obtain ⟨-, -, d2, l2⟩ := hW2 l1 a2
      have h10 : f2.data.length = 10 := by
        rw [d2, d1]
        simp [length_littleEndian]
      have hW3 := writeValues_ok env flat 0 f2 [] l2
      simp only [h10, Nat.cast_ofNat, h3, List.nil_append] at hW3
      obtain ⟨-, hr3, d3, l3⟩ := hW3 a3
      have hbound : 10 + valueBytes flat ≤ maxFileSize := by
        rw [d3, List.length_append, length_flatten_values, h10] at l3
        exact l3
      have hpos : indexPos = 10 + valueBytes flat := by
        rw [← hip, totalValueSize_eq flat (by omega), uint64_natCast _ (by omega)]
        unfold addUint64
        omega
      subst hr3
      simp only [h1, h2, h3, Option.some.injEq] at hfile ⊢
      rw [← hfile] at hok ⊢
      obtain ⟨r1, r2⟩ := writeIndex_ok env _ f3 l3 hok
      refine ⟨r1, hbound, ?_⟩
      rw [r2, d3, d2, d1, hpos]
      simp

theorem create_eq_none_of_allOk (create : Option Error) (env : Faults) (l : Memtable)
    (h : (l.flush create env).allOk = true) : create = none := by
  cases create with
  | none => rfl
  | some e => simp [Memtable.flush, FlushResult.allOk] at h

/-- The layout of the file after a run of `flush` in which the file is created and every write
succeeds in full: header, values in the order of the traversal, records in the order of the sort. -/
theorem flush_data (create : Option Error) (env : Faults) (l : Memtable)
    (h : (l.flush create env).allOk = true) :
    (l.flush create env).err = none ∧
    10 + valueBytes l.key.flattenInOrder ≤ maxFileSize ∧
    (l.flush create env).data =
      littleEndian 2 0 ++ littleEndian 8 (10 + valueBytes l.key.flattenInOrder) ++
      (l.key.flattenInOrder.map Entry.value).flatten ++
      ((sort.Slice hashLess (builtKeys l.key.flattenInOrder 10)).map
        (fun k => encodeRecord (recordOf k))).flatten := by
  have hc := create_eq_none_of_allOk create env l h
  subst hc
  cases hf : (l.flush none env).file with
  | none => simp [FlushResult.allOk, hf] at h
  | some f =>
    have hok : f.allOk = true := by simpa [FlushResult.allOk, hf] using h
    have := flush_ok env l f hf hok
    simpa [FlushResult.data, hf] using this

/-! ### The sort of the index records -/

theorem hashLess_eq_false_iff (a b : keyIndex) :
    hashLess b a = false ↔ bytes.Compare a.hash b.hash ≤ 0 := by
  unfold hashLess
  rw [bytes.Compare_swap a.hash b.hash]
  simp

theorem sort.perm_Slice {α : Type} (less : α → α → Bool) (x : List α) :
    (sort.Slice less x).Perm x :=
  List.perm_insertionSort _ x

theorem sorted_Slice_hashLess (keys : List keyIndex) :
    (sort.Slice hashLess keys).Pairwise (fun a b => bytes.Compare a.hash b.hash ≤ 0) := by
  haveI : IsTotal keyIndex (fun a b => hashLess b a = false) := ⟨fun a b => by
    simp only [hashLess_eq_false_iff]
    have := bytes.Compare_swap a.hash b.hash
    omega⟩
  haveI : IsTrans keyIndex (fun a b => hashLess b a = false) := ⟨fun a b c hab hbc => by
    simp only [hashLess_eq_false_iff] at hab hbc ⊢
    exact bytes.Compare_le_trans _ _ _ hab hbc⟩
  have hs := List.sorted_insertionSort (fun a b => hashLess b a = false) keys
  exact List.Pairwise.imp (fun h => (hashLess_eq_false_iff _ _).1 h) hs

/-! ### Reading the segment file back -/

theorem length_encodeRecord (r : IndexRecord) (h : r.hash.length = 16) :
    (encodeRecord r).length = 32 := by
  simp [encodeRecord, length_littleEndian, h]

theorem readRecord_encodeRecord (r : IndexRecord) (h : r.hash.length = 16)
    (hs : r.valueStart < 2 ^ 64) (he : r.valueEnd < 2 ^ 64) :
    readRecord (encodeRecord r) = r := by
  have l8 : ∀ x, (littleEndian 8 x).length = 8 := length_littleEndian 8
  have h1 : slice (encodeRecord r) 0 16 = r.hash := by
    have := slice_prefix_append [] r.hash (littleEndian 8 r.valueStart ++ littleEndian 8 r.valueEnd)
      0 16 rfl (by simp [h])
    simpa [encodeRecord, List.append_assoc] using this
  have h2 : slice (encodeRecord r) 16 24 = littleEndian 8 r.valueStart :=
    slice_prefix_append r.hash _ _ 16 24 h.symm (by rw [h, l8])
  have h3 : slice (encodeRecord r) 24 32 = littleEndian 8 r.valueEnd := by
    have := slice_append_right (r.hash ++ littleEndian 8 r.valueStart)
      (littleEndian 8 r.valueEnd) 32 (by simp [h, l8])
    simpa [encodeRecord, h, l8] using this
  cases r with
  | mk hash vs ve =>
    simp only [readRecord, h1, h2, h3, fromLittleEndian_littleEndian_eight _ hs,
      fromLittleEndian_littleEndian_eight _ he]

theorem readRecords_flatten :
    ∀ rs : List IndexRecord,
      (∀ r ∈ rs, r.hash.length = 16 ∧ r.valueStart < 2 ^ 64 ∧ r.valueEnd < 2 ^ 64) →
      readRecords rs.length (rs.map encodeRecord).flatten = rs := by
  intro rs
  induction rs with
  | nil => intro _; rfl
  | cons r rest ih =>
    intro h
    obtain ⟨h16, hs, he⟩ := h r (List.mem_cons_self _ _)
    have hl := length_encodeRecord r h16
    have ht : ((r :: rest).map encodeRecord).flatten.take 32 = encodeRecord r := by
      simp [List.take_append_of_le_length, hl]
    have hd : ((r :: rest).map encodeRecord).flatten.drop 32 = (rest.map encodeRecord).flatten := by
      simp [List.drop_append_of_le_length, hl]
    show readRecord _ :: readRecords rest.length _ = r :: rest
    rw [ht, hd, readRecord_encodeRecord r h16 hs he,
      ih (fun q hq => h q (List.mem_cons_of_mem _ hq))]

theorem length_flatten_encodeRecord :
    ∀ rs : List IndexRecord, (∀ r ∈ rs, r.hash.length = 16) →
      (rs.map encodeRecord).flatten.length = 32 * rs.length := by
  intro rs
  induction rs with
  | nil => intro _; rfl
  | cons r rest ih =>
    intro h
    have hl := length_encodeRecord r (h r (List.mem_cons_self _ _))
    have := ih (fun q hq => h q (List.mem_cons_of_mem _ hq))
    simp only [List.map_cons, List.flatten_cons, List.length_append, hl, this, List.length_cons]
    omega

theorem hash_length_builtKeys :
    ∀ (flat : List Entry) (off : Nat), ∀ k ∈ builtKeys flat off, k.hash.length = 16 := by
  intro flat
  induction flat with
  | nil => intro off k hk; simp [builtKeys] at hk
  | cons e rest ih =>
    intro off k hk
    simp only [builtKeys, List.mem_cons] at hk
    rcases hk with rfl | hk
    · exact murmur3.length_Sum128 _
    · exact ih _ k hk

theorem length_builtKeys :
    ∀ (flat : List Entry) (off : Nat), (builtKeys flat off).length = flat.length := by
  intro flat
  induction flat with
  | nil => intro off; rfl
  | cons e rest ih => intro off; simp [builtKeys, ih]

theorem uint64_lt (x : Int) : uint64 x < 2 ^ 64 := by
  unfold uint64
  omega

theorem writtenRecords_wf (l : Memtable) :
    ∀ r ∈ writtenRecords l,
      r.hash.length = 16 ∧ r.valueStart < 2 ^ 64 ∧ r.valueEnd < 2 ^ 64 := by
  intro r hr
  simp only [writtenRecords, List.mem_map] at hr
  obtain ⟨k, hk, rfl⟩ := hr
  have hk2 : k ∈ builtKeys l.key.flattenInOrder 10 := (sort.perm_Slice _ _).mem_iff.1 hk
  exact ⟨hash_length_builtKeys _ _ k hk2, uint64_lt _, uint64_lt _⟩

theorem length_writtenRecords (l : Memtable) :
    (writtenRecords l).length = l.key.flattenInOrder.length := by
  simp [writtenRecords, (sort.perm_Slice hashLess _).length_eq, length_builtKeys]

theorem layout (A B V I : Bytes) (hA : A.length = 2) (hB : B.length = 8) :
    slice (A ++ B ++ V ++ I) 0 2 = A ∧ slice (A ++ B ++ V ++ I) 2 10 = B ∧
    (A ++ B ++ V ++ I).take 10 = A ++ B ∧
    slice (A ++ B ++ V ++ I) 10 (10 + V.length) = V ∧
    (A ++ B ++ V ++ I).drop (10 + V.length) = I ∧
    (A ++ B ++ V ++ I).length = 10 + V.length + I.length := by
  refine ⟨?_, ?_, ?_, ?_, ?_, ?_⟩
  · have := slice_prefix_append [] A (B ++ V ++ I) 0 2 rfl (by simp [hA])
    simpa [List.append_assoc] using this
  · have := slice_prefix_append A B (V ++ I) 2 10 hA.symm (by rw [hA, hB])
    simpa [List.append_assoc] using this
  · have h10 : (A ++ B).length = 10 := by simp [hA, hB]
    rw [List.append_assoc (A ++ B), List.take_append_of_le_length (by omega), ← h10,
      List.take_length]
  · exact slice_prefix_append (A ++ B) V I 10 (10 + V.length) (by simp [hA, hB])
      (by simp [hA, hB])
  · have h10 : (A ++ B ++ V).length = 10 + V.length := by
      simp only [List.length_append, hA, hB]
    rw [← h10, List.drop_left]
  · simp only [List.length_append, hA, hB]

/-- What a reader finds in the file after a run of `flush` in which the file is created and every
write succeeds in full. -/
theorem flush_read (create : Option Error) (env : Faults) (l : Memtable)
    (h : (l.flush create env).allOk = true) :
    readLevel (l.flush create env).data = 0 ∧
    readIndexPos (l.flush create env).data = 10 + valueBytes l.key.flattenInOrder ∧
    (l.flush create env).data.take 10 =
      littleEndian 2 0 ++ littleEndian 8 (10 + valueBytes l.key.flattenInOrder) ∧
    slice (l.flush create env).data 10 (10 + valueBytes l.key.flattenInOrder) =
      (l.key.flattenInOrder.map Entry.value).flatten ∧
    indexRegion (l.flush create env).data = ((writtenRecords l).map encodeRecord).flatten ∧
    (l.flush create env).data.length =
      10 + valueBytes l.key.flattenInOrder + 32 * l.key.flattenInOrder.length ∧
    readIndex (l.flush create env).data = writtenRecords l := by
  obtain ⟨-, hb, hd⟩ := flush_data create env l h
  have hmax : maxFileSize = 2 ^ 63 - 1 := rfl
  have hI : ((sort.Slice hashLess (builtKeys l.key.flattenInOrder 10)).map
      (fun k => encodeRecord (recordOf k))).flatten =
        ((writtenRecords l).map encodeRecord).flatten := by
    simp [writtenRecords, List.map_map, Function.comp_def]
  rw [hI] at hd
  obtain ⟨p1, p2, p3, p4, p5, p6⟩ := layout (littleEndian 2 0)
    (littleEndian 8 (10 + valueBytes l.key.flattenInOrder))
    (l.key.flattenInOrder.map Entry.value).flatten ((writtenRecords l).map encodeRecord).flatten
    (length_littleEndian 2 0) (length_littleEndian 8 _)
  rw [length_flatten_values] at p4 p5 p6
  rw [← hd] at p1 p2 p3 p4 p5 p6
  have hpos : readIndexPos (l.flush create env).data = 10 + valueBytes l.key.flattenInOrder := by
    rw [readIndexPos, p2, fromLittleEndian_littleEndian_eight _ (by omega)]
  have hlen : ((writtenRecords l).map encodeRecord).flatten.length =
      32 * l.key.flattenInOrder.length := by
    rw [length_flatten_encodeRecord _ (fun r hr => (writtenRecords_wf l r hr).1),
      length_writtenRecords]
  have hreg : indexRegion (l.flush create env).data =
      ((writtenRecords l).map encodeRecord).flatten := by
    rw [indexRegion, hpos, p5]
  refine ⟨?_, hpos, p3, p4, hreg, ?_, ?_⟩
  · rw [readLevel, p1]
    rfl
  · rw [p6, hlen]
  · rw [readIndex, hreg, hlen, Nat.mul_div_cancel_left _ (by norm_num : 0 < 32),
      ← length_writtenRecords, readRecords_flatten _ (writtenRecords_wf l)]

/-! ### The segment file written by `flush` -/

/-- C2. Flush header: when the file is created and the writes succeed, the first 10 bytes of the
file are the 2-byte little-endian level 0 followed by the 8-byte little-endian `indexPos`, where
`indexPos` is 10 plus the sum of `len(value)` over the entries of the in-order traversal, a number
that fits an unsigned 64-bit integer. -/
theorem flush_header (create : Option Error) (env : Faults) (l : Memtable)
    (h : (l.flush create env).allOk = true) :
    (l.flush create env).data.take 10 =
      littleEndian 2 0 ++ littleEndian 8 (10 + valueBytes l.key.flattenInOrder) ∧
    readLevel (l.flush create env).data = 0 ∧
    readIndexPos (l.flush create env).data = 10 + valueBytes l.key.flattenInOrder ∧
    10 + valueBytes l.key.flattenInOrder < 2 ^ 64 := by
  obtain ⟨r1, r2, r3, -⟩ := flush_read create env l h
  obtain ⟨-, hb, -⟩ := flush_data create env l h
  have hmax : maxFileSize = 2 ^ 63 - 1 := rfl
  exact ⟨r3, r1, r2, by omega⟩

/-- Witness of C2: the empty memtable gives `indexPos = 10`, the memtable holding
("apple", "red") and ("banana", "yellow") gives `indexPos = 19`. -/
theorem flush_header_witness :
    ((newMemtable "segment").flush none noFaults).allOk = true ∧
    readIndexPos ((newMemtable "segment").flush none noFaults).data = 10 ∧
    (fruits.flush none noFaults).allOk = true ∧
    readIndexPos (fruits.flush none noFaults).data = 19 ∧
    (fruits.flush none noFaults).data.take 10 = [0, 0, 19, 0, 0, 0, 0, 0, 0, 0] :=
  ⟨by decide,
    (flush_header none noFaults (newMemtable "segment") (by decide)).2.2.1.trans (by decide),
    by decide,
    (flush_header none noFaults fruits (by decide)).2.2.1.trans (by decide),
    (flush_header none noFaults fruits (by decide)).1.trans (by decide)⟩

/-- C5. Value region order: when the file is created and every write succeeds in full, the bytes
of the file at the offsets from 10 to `indexPos` are the values of the entries, one after the
other in the order of the in-order traversal of the buffer. -/
theorem value_region_order (create : Option Error) (env : Faults) (l : Memtable)
    (h : (l.flush create env).allOk = true) :
    slice (l.flush create env).data 10 (readIndexPos (l.flush create env).data) =
      (l.key.flattenInOrder.map Entry.value).flatten := by
  obtain ⟨-, r2, -, r4, -⟩ := flush_read create env l h
  rw [r2, r4]

/-- Witness of C5: ("apple", "red") and ("banana", "yellow"), put in either order, give the
value region "redyellow", while the index lists the record of "banana" (range 13 to 19) before the
record of "apple" (range 10 to 13). -/
theorem value_region_order_witness :
    (fruits.flush none noFaults).allOk = true ∧
    (fruitsReversed.flush none noFaults).allOk = true ∧
    slice (fruits.flush none noFaults).data 10 (readIndexPos (fruits.flush none noFaults).data) =
      red ++ yellow ∧
    slice (fruitsReversed.flush none noFaults).data 10
      (readIndexPos (fruitsReversed.flush none noFaults).data) = red ++ yellow ∧
    (readIndex (fruits.flush none noFaults).data).map IndexRecord.valueStart = [13, 10] :=
  ⟨by decide, by decide,
    (value_region_order none noFaults fruits (by decide)).trans (by decide),
    (value_region_order none noFaults fruitsReversed (by decide)).trans (by decide),
    by decide⟩

theorem slice_slice (d : Bytes) (p q a b : Nat) (h : p + b ≤ q) :
    slice (slice d p q) a b = slice d (p + a) (p + b) := by
  unfold slice
  rw [List.drop_take, List.take_take, List.drop_drop]
  congr 1
  omega

theorem slice_flatten_encodeRecord (pre : Bytes) :
    ∀ (rs : List IndexRecord) (front : Bytes), (∀ r ∈ rs, r.hash.length = 16) →
      ∀ (i : Nat) (r : IndexRecord), rs[i]? = some r →
        slice (pre ++ front ++ (rs.map encodeRecord).flatten)
          (pre.length + front.length + 32 * i) (pre.length + front.length + 32 * i + 32) =
          encodeRecord r := by
  intro rs
  induction rs with
  | nil => intro front _ i r hi; simp at hi
  | cons r0 rest ih =>
    intro front h i r hi
    have hl := length_encodeRecord r0 (h r0 (List.mem_cons_self _ _))
    cases i with
    | zero =>
      simp only [List.getElem?_cons_zero, Option.some.injEq] at hi
      subst hi
      have := slice_prefix_append (pre ++ front) (encodeRecord r0) (rest.map encodeRecord).flatten
        (pre.length + front.length + 32 * 0) (pre.length + front.length + 32 * 0 + 32)
        (by simp) (by simp [hl])
      simpa [List.append_assoc] using this
    | succ j =>
      simp only [List.getElem?_cons_succ] at hi
      have := ih (front ++ encodeRecord r0) (fun q hq => h q (List.mem_cons_of_mem _ hq)) j r hi
      simp only [List.length_append, hl] at this
      have e1 : pre.length + front.length + 32 * (j + 1) =
          pre.length + (front.length + 32) + 32 * j := by omega
      rw [e1]
      simpa [List.append_assoc] using this

theorem map_recordOf_builtKeys :
    ∀ (flat : List Entry) (off : Nat), off + valueBytes flat < 2 ^ 64 →
      (builtKeys flat off).map recordOf = builtRecords flat off := by
  intro flat
  induction flat with
  | nil => intro off _; rfl
  | cons e rest ih =>
    intro off h
    rw [valueBytes_cons] at h
    simp only [builtKeys, builtRecords, List.map_cons, recordOf]
    rw [ih (off + e.value.length) (by omega), uint64_natCast _ (by omega),
      uint64_natCast _ (by omega)]

/-- C4. Index region placement and framing: when the file is created and every write succeeds
in full, for a memtable of N entries the header stores `indexPos`, 10 plus the sum of the lengths
of the values, and the file is `indexPos + 32 * N` bytes long.  The records that `flush` builds
for the entries, one per entry with the hash of its key and the range of its value, and sorts,
are N records, and the record number `i` of the sorted slice takes the 32 bytes of the file from
`indexPos + 32 * i`: its 16 bytes of hash, then its `valueStart` and then its `valueEnd`, each as
an 8-byte little-endian unsigned integer. -/
theorem index_region_framing (create : Option Error) (env : Faults) (l : Memtable)
    (h : (l.flush create env).allOk = true) :
    readIndexPos (l.flush create env).data = 10 + valueBytes l.key.flattenInOrder ∧
    (l.flush create env).data.length =
      readIndexPos (l.flush create env).data + 32 * l.key.flattenInOrder.length ∧
    (writtenRecords l).length = l.key.flattenInOrder.length ∧
    (writtenRecords l).Perm (builtRecords l.key.flattenInOrder 10) ∧
    ∀ (i : Nat) (r : IndexRecord), (writtenRecords l)[i]? = some r →
      r.hash.length = 16 ∧ r.valueStart < 2 ^ 64 ∧ r.valueEnd < 2 ^ 64 ∧
      slice (l.flush create env).data (readIndexPos (l.flush create env).data + 32 * i)
        (readIndexPos (l.flush create env).data + 32 * i + 16) = r.hash ∧
      slice (l.flush create env).data (readIndexPos (l.flush create env).data + 32 * i + 16)
        (readIndexPos (l.flush create env).data + 32 * i + 24) = littleEndian 8 r.valueStart ∧
      slice (l.flush create env).data (readIndexPos (l.flush create env).data + 32 * i + 24)
        (readIndexPos (l.flush create env).data + 32 * i + 32) = littleEndian 8 r.valueEnd := by
  obtain ⟨-, r2, -, -, -, r6, -⟩ := flush_read create env l h
  obtain ⟨-, hb, hd⟩ := flush_data create env l h
  have hmax : maxFileSize = 2 ^ 63 - 1 := rfl
  have hI : ((sort.Slice hashLess (builtKeys l.key.flattenInOrder 10)).map
      (fun k => encodeRecord (recordOf k))).flatten =
        ((writtenRecords l).map encodeRecord).flatten := by
    simp [writtenRecords, List.map_map, Function.comp_def]
  rw [hI] at hd
  refine ⟨r2, by rw [r6, r2], length_writtenRecords l, ?_, ?_⟩
  · rw [writtenRecords,
      ← map_recordOf_builtKeys _ _ (by omega : 10 + valueBytes l.key.flattenInOrder < 2 ^ 64)]
    exact (sort.perm_Slice hashLess _).map recordOf
  · intro i r hi
    obtain ⟨w1, w2, w3⟩ := writtenRecords_wf l r (List.getElem?_mem hi)
    have hs := slice_flatten_encodeRecord (littleEndian 2 0 ++
      littleEndian 8 (10 + valueBytes l.key.flattenInOrder))
      (writtenRecords l) (l.key.flattenInOrder.map Entry.value).flatten
      (fun q hq => (writtenRecords_wf l q hq).1) i r hi
    rw [← hd] at hs
    simp only [List.length_append, length_littleEndian, length_flatten_values] at hs
    have hp : readIndexPos (l.flush create env).data = 2 + 8 + valueBytes l.key.flattenInOrder := by
      rw [r2]
    rw [← hp] at hs
    have l8 : ∀ x, (littleEndian 8 x).length = 8 := length_littleEndian 8
    generalize readIndexPos (l.flush create env).data + 32 * i = p at hs ⊢
    generalize (l.flush create env).data = d at hs ⊢
    have q1 := congrArg (fun b => slice b 0 16) hs
    have q2 := congrArg (fun b => slice b 16 24) hs
    have q3 := congrArg (fun b => slice b 24 32) hs
    have e1 : slice (encodeRecord r) 0 16 = r.hash := by
      have := slice_prefix_append [] r.hash
        (littleEndian 8 r.valueStart ++ littleEndian 8 r.valueEnd) 0 16 rfl (by simp [w1])
      simpa [encodeRecord, List.append_assoc] using this
    have e2 : slice (encodeRecord r) 16 24 = littleEndian 8 r.valueStart :=
      slice_prefix_append r.hash _ _ 16 24 w1.symm (by rw [w1, l8])
    have e3 : slice (encodeRecord r) 24 32 = littleEndian 8 r.valueEnd := by
      have := slice_append_right (r.hash ++ littleEndian 8 r.valueStart)
        (littleEndian 8 r.valueEnd) 32 (by simp [w1, l8])
      simpa [encodeRecord, w1, l8] using this
    simp only [e1, e2, e3] at q1 q2 q3
    rw [slice_slice d p (p + 32) _ _ (by omega)] at q1 q2 q3
    exact ⟨w1, w2, w3, q1, q2, q3⟩

/-- Witness of C4: the file of ("apple", "red") and ("banana", "yellow") is 19 + 64 bytes long;
the record number 1 of the sorted slice is the record of "apple", with the range from 10 to 13,
and it takes the 32 bytes from the offset 51. -/
theorem index_region_framing_witness :
    (fruits.flush none noFaults).allOk = true ∧
    readIndexPos (fruits.flush none noFaults).data = 19 ∧
    (fruits.flush none noFaults).data.length = 19 + 32 * 2 ∧
    (writtenRecords fruits)[1]? =
      some { hash := murmur3.Sum128 apple, valueStart := 10, valueEnd := 13 } ∧
    slice (fruits.flush none noFaults).data
      (readIndexPos (fruits.flush none noFaults).data + 32 * 1)
      (readIndexPos (fruits.flush none noFaults).data + 32 * 1 + 16) = murmur3.Sum128 apple ∧
    slice (fruits.flush none noFaults).data
      (readIndexPos (fruits.flush none noFaults).data + 32 * 1 + 16)
      (readIndexPos (fruits.flush none noFaults).data + 32 * 1 + 24) = littleEndian 8 10 ∧
    slice (fruits.flush none noFaults).data
      (readIndexPos (fruits.flush none noFaults).data + 32 * 1 + 24)
      (readIndexPos (fruits.flush none noFaults).data + 32 * 1 + 32) = littleEndian 8 13 :=
  ⟨by decide,
    (index_region_framing none noFaults fruits (by decide)).1.trans (by decide),
    (index_region_framing none noFaults fruits (by decide)).2.1.trans (by decide),
    by decide,
    ((index_region_framing none noFaults fruits (by decide)).2.2.2.2 1
      { hash := murmur3.Sum128 apple, valueStart := 10, valueEnd := 13 } (by decide)).2.2.2.1,
    ((index_region_framing none noFaults fruits (by decide)).2.2.2.2 1
      { hash := murmur3.Sum128 apple, valueStart := 10, valueEnd := 13 } (by decide)).2.2.2.2.1,
    ((index_region_framing none noFaults fruits (by decide)).2.2.2.2 1
      { hash := murmur3.Sum128 apple, valueStart := 10, valueEnd := 13 } (by decide)).2.2.2.2.2⟩

theorem builtRecords_slice :
    ∀ (flat : List Entry) (pre post : Bytes), ∀ e ∈ flat,
      ∃ r ∈ builtRecords flat pre.length, r.hash = murmur3.Sum128 e.key ∧
        r.valueStart + e.value.length = r.valueEnd ∧
        slice (pre ++ (flat.map Entry.value).flatten ++ post) r.valueStart r.valueEnd =
          e.value := by
  intro flat
  induction flat with
  | nil => intro pre post e he; simp at he
  | cons e0 rest ih =>
    intro pre post e he
    rcases List.mem_cons.1 he with rfl | he
    · refine ⟨_, List.mem_cons_self _ _, rfl, rfl, ?_⟩
      have := slice_prefix_append pre e.value ((rest.map Entry.value).flatten ++ post)
        pre.length (pre.length + e.value.length) rfl rfl
      simpa [List.append_assoc] using this
    · obtain ⟨r, hr, h1, h2, h3⟩ := ih (pre ++ e0.value) post e he
      refine ⟨r, ?_, h1, h2, ?_⟩
      · simp only [builtRecords]
        rw [List.length_append] at hr
        exact List.mem_cons_of_mem _ hr
      · simpa [List.append_assoc] using h3

/-- C1. Flush round-trip: when the file is created and every write succeeds in full, the index
region of the file of a memtable of N entries holds exactly N records, and for every entry
`(k, v)` of the in-order traversal there is a record whose hash is the 16 bytes of the murmur3
hash of `k` and whose range of file offsets from `valueStart` to `valueEnd` holds exactly the bytes
of `v`.  The keys need not even be distinct. -/
theorem flush_round_trip (create : Option Error) (env : Faults) (l : Memtable)
    (h : (l.flush create env).allOk = true) :
    (readIndex (l.flush create env).data).length = l.key.flattenInOrder.length ∧
    ∀ e ∈ l.key.flattenInOrder, ∃ r ∈ readIndex (l.flush create env).data,
      r.hash = murmur3.Sum128 e.key ∧ r.hash.length = 16 ∧
      r.valueStart + e.value.length = r.valueEnd ∧
      slice (l.flush create env).data r.valueStart r.valueEnd = e.value := by
  obtain ⟨-, -, -, -, -, -, r7⟩ := flush_read create env l h
  obtain ⟨-, hb, hd⟩ := flush_data create env l h
  have hmax : maxFileSize = 2 ^ 63 - 1 := rfl
  refine ⟨by rw [r7, length_writtenRecords], ?_⟩
  intro e he
  obtain ⟨r, hr, h1, h2, h3⟩ := builtRecords_slice l.key.flattenInOrder
    (littleEndian 2 0 ++ littleEndian 8 (10 + valueBytes l.key.flattenInOrder))
    (((sort.Slice hashLess (builtKeys l.key.flattenInOrder 10)).map
        (fun k => encodeRecord (recordOf k))).flatten) e he
  rw [← hd] at h3
  have h10 : (littleEndian 2 0 ++
      littleEndian 8 (10 + valueBytes l.key.flattenInOrder)).length = 10 := by
    simp [length_littleEndian]
  rw [h10, ← map_recordOf_builtKeys _ _ (by omega)] at hr
  refine ⟨r, ?_, h1, ?_, h2, h3⟩
  · rw [r7, writtenRecords]
    exact ((sort.perm_Slice hashLess _).map recordOf).mem_iff.2 hr
  · rw [h1]
    exact murmur3.length_Sum128 _

/-- Witness of C1: ("apple", "red") and ("banana", "yellow") give the ranges from 10 to 13,
holding "red", and from 13 to 19, holding "yellow". -/
theorem flush_round_trip_witness :
    (fruits.flush none noFaults).allOk = true ∧
    (readIndex (fruits.flush none noFaults).data).length = 2 ∧
    readIndex (fruits.flush none noFaults).data =
      [{ hash := murmur3.Sum128 banana, valueStart := 13, valueEnd := 19 },
       { hash := murmur3.Sum128 apple, valueStart := 10, valueEnd := 13 }] ∧
    slice (fruits.flush none noFaults).data 10 13 = red ∧
    slice (fruits.flush none noFaults).data 13 19 = yellow :=
  ⟨by decide, (flush_round_trip none noFaults fruits (by decide)).1.trans (by decide),
    by decide, by decide, by decide⟩

/-- The order of the index when no write fails: when the file is created and every write
succeeds in full, the records of the index region stand in the file so that whenever one record
comes before another its hash is at most the other hash in the unsigned byte-wise order, and they
are a permutation of the records built in the value pass: none is dropped, duplicated or changed.
The sort itself does so on every slice of records: its result is in that order and a permutation
of the slice. -/
theorem index_sorted_of_allOk (create : Option Error) (env : Faults) (l : Memtable)
    (h : (l.flush create env).allOk = true) :
    (readIndex (l.flush create env).data).Pairwise
      (fun a b => bytes.Compare a.hash b.hash ≤ 0) ∧
    (readIndex (l.flush create env).data).Perm (builtRecords l.key.flattenInOrder 10) ∧
    ∀ keys : List keyIndex,
      (sort.Slice hashLess keys).Pairwise (fun a b => bytes.Compare a.hash b.hash ≤ 0) ∧
      (sort.Slice hashLess keys).Perm keys := by
  obtain ⟨-, -, -, -, -, -, r7⟩ := flush_read create env l h
  obtain ⟨-, hb, -⟩ := flush_data create env l h
  have hmax : maxFileSize = 2 ^ 63 - 1 := rfl
  rw [r7, writtenRecords]
  refine ⟨?_, ?_, fun keys => ⟨sorted_Slice_hashLess keys, sort.perm_Slice hashLess keys⟩⟩
  · rw [List.pairwise_map]
    exact sorted_Slice_hashLess _
  · rw [← map_recordOf_builtKeys _ _ (by omega : 10 + valueBytes l.key.flattenInOrder < 2 ^ 64)]
    exact (sort.perm_Slice hashLess _).map recordOf

/-- In the file of ("apple", "red") and ("banana", "yellow"), written without a fault, the record
of "banana", whose hash starts with the byte 0x34, stands before the record of "apple", whose
hash starts with the byte 0xe5. -/
theorem index_sorted_fruits :
    (fruits.flush none noFaults).allOk = true ∧
    (readIndex (fruits.flush none noFaults).data).Pairwise
      (fun a b => bytes.Compare a.hash b.hash ≤ 0) ∧
    (readIndex (fruits.flush none noFaults).data).map (fun r => r.hash.take 1) =
      [[0x34], [0xe5]] ∧
    builtRecords fruits.key.flattenInOrder 10 =
      [{ hash := murmur3.Sum128 apple, valueStart := 10, valueEnd := 13 },
       { hash := murmur3.Sum128 banana, valueStart := 13, valueEnd := 19 }] :=
  ⟨by decide, (index_sorted_of_allOk none noFaults fruits (by decide)).1, by decide, by decide⟩

set_option maxRecDepth 4000 in
/-- C3 fails on the code: in the flush of the memtable holding ("apple", "red"),
("banana", "yellow") and ("cherry", "dark"), whose sorted records are those of "banana", "cherry"
and "apple", the write of the 16 bytes of the hash of the second record (call number 8) writes
nothing and reports that the device is full; `flush` drops that error, writes on and returns nil.
The index region of the file is 80 bytes: the record of "banana", then the two offsets 19 and 23
of "cherry", then the record of "apple".  At the position 1 of the region stand the two offsets
where a hash is due, and the hash at the position 0 is greater than these 16 bytes: the records of
the index region are not in the order of their hashes, and they are two, not a permutation of the
three records built in the value pass. -/
theorem index_unsorted_after_swallowed_error :
    (threeFruits.flush none secondHashWriteFault).err = none ∧
    (threeFruits.flush none secondHashWriteFault).calls.map (fun c => (c.requested, c.n)) =
      [(2, 2), (8, 8), (3, 3), (6, 6), (4, 4), (16, 16), (8, 8), (8, 8), (16, 0), (8, 8), (8, 8),
       (16, 16), (8, 8), (8, 8)] ∧
    indexRegion (threeFruits.flush none secondHashWriteFault).data =
      murmur3.Sum128 banana ++ littleEndian 8 13 ++ littleEndian 8 19 ++
      (littleEndian 8 19 ++ littleEndian 8 23) ++
      (murmur3.Sum128 apple ++ littleEndian 8 10 ++ littleEndian 8 13) ∧
    (readIndex (threeFruits.flush none secondHashWriteFault).data).map IndexRecord.hash =
      [murmur3.Sum128 banana, littleEndian 8 19 ++ littleEndian 8 23] ∧
    bytes.Compare (murmur3.Sum128 banana) (littleEndian 8 19 ++ littleEndian 8 23) = 1 ∧
    ¬ (readIndex (threeFruits.flush none secondHashWriteFault).data).Pairwise
      (fun a b => bytes.Compare a.hash b.hash ≤ 0) ∧
    (builtRecords threeFruits.key.flattenInOrder 10).length = 3 ∧
    ¬ (readIndex (threeFruits.flush none secondHashWriteFault).data).Perm
      (builtRecords threeFruits.key.flattenInOrder 10) := by
  refine ⟨by decide, by decide, by decide, by decide, by decide, by decide, by decide,
    fun h => absurd h.length_eq (by decide)⟩

end lsmkv

/-! ### Errors of the writes of `flush` -/

namespace lsmkv

/-- The sibling path: when the write of the value (call number 2) fails, `flush` stops there
and returns the failure, wrapped with the number of the node. -/
theorem flush_surfaces_value_write_error :
    (oneFruit.flush none valueWriteFault).err =
      some (Error.wrapf (Error.sys "no space left on device") "write node 0") ∧
    ((oneFruit.flush none valueWriteFault).err.map Error.Cause) =
      some (Error.sys "no space left on device") ∧
    (oneFruit.flush none valueWriteFault).calls =
      [⟨2, 2, none⟩, ⟨8, 8, none⟩,
       ⟨3, 1, some (Error.sys "no space left on device")⟩] := by
  decide

theorem flush_create_error (e : Error) (env : Faults) (l : Memtable) :
    l.flush (some e) env = { file := none, err := some e } :=
  rfl

/-- C6 fails on the code: in the flush of the memtable holding ("apple", "red"), the write of the
16 bytes of the hash (call number 3) writes nothing and reports that the device is full, and
`flush` goes on to write the two offsets and returns nil; the file is left 16 bytes short. -/
theorem flush_swallows_hash_write_error :
    (oneFruit.flush none hashWriteFault).err = none ∧
    (oneFruit.flush none hashWriteFault).calls =
      [⟨2, 2, none⟩, ⟨8, 8, none⟩, ⟨3, 3, none⟩,
       ⟨16, 0, some (Error.sys "no space left on device")⟩,
       ⟨8, 8, none⟩, ⟨8, 8, none⟩] ∧
    (oneFruit.flush none hashWriteFault).allOk = false ∧
    (oneFruit.flush none hashWriteFault).data =
      littleEndian 2 0 ++ littleEndian 8 13 ++ red ++ littleEndian 8 10 ++ littleEndian 8 13 := by
  decide

end lsmkv

/-! ### The migrator -/

namespace esvector

/-- C10 fails on the code: for the class "City" whose one property has an empty list of data
types, and a repo that answers every call with nil, `AddClass` calls `PutIndex` and then panics
on `prop.DataType[0]`: `SetMappings` is never called and nothing is returned. -/
theorem AddClass_panics_on_untyped_property (lower : String → String) :
    Migrator.AddClass lower willingRepo thing untypedCity =
      { calls := [Call.PutIndex ("class_" ++ "thing" ++ "_" ++ lower "City")]
        outcome := Outcome.panic "runtime error: index out of range [0] with length 0" } := by
  rfl

/-- A run of `AddClass` on the class `city`: the index is created, then the one primitive
property is mapped. -/
theorem AddClass_city (lower : String → String) :
    Migrator.AddClass lower willingRepo thing city =
      { calls := [Call.PutIndex ("class_" ++ "thing" ++ "_" ++ lower "City"),
          Call.SetMappings ("class_" ++ "thing" ++ "_" ++ lower "City")
            [("name", [("type", FieldType.Keyword)])]]
        outcome := Outcome.returned none } := by
  rfl

theorem esPropertiesLoop_ok :
    ∀ (props : List SemanticSchemaClassProperty) (esProperties : GoMap (GoMap FieldType)),
      (∀ p ∈ props, p.DataType ≠ []) →
      ∃ filled, esPropertiesLoop props esProperties = Except.ok filled := by
  intro props
  induction props with
  | nil => intro es _; exact ⟨es, rfl⟩
  | cons prop rest ih =>
    intro es h
    have hrest : ∀ p ∈ rest, p.DataType ≠ [] := fun p hp => h p (List.mem_cons_of_mem _ hp)
    have hprop : prop.DataType ≠ [] := h prop (List.mem_cons_self _ _)
    unfold esPropertiesLoop
    split_ifs with h1
    · exact ih es hrest
    · cases hdt : prop.DataType with
      | nil => exact absurd hdt hprop
      | cons dt tl =>
        simp only
        split_ifs <;> exact ih _ hrest

/-- On a class whose properties all have a data type, `AddClass` runs as C10 states: first
`PutIndex` on the index of the class, and when that fails nothing more; else one `SetMappings` on
the same index with the mappings of the properties; the error of either call is returned under
the stated wording, and nil when both succeed. -/
theorem AddClass_of_typed_properties (lower : String → String) (repo : Repo) (kind : Kind)
    (cls : SemanticSchemaClass) (h : ∀ p ∈ cls.Properties, p.DataType ≠ []) :
    ∃ esProperties, esPropertiesLoop cls.Properties [] = Except.ok esProperties ∧
      (∀ err, repo.PutIndex ("class_" ++ kind.Name ++ "_" ++ lower cls.Class) = some err →
        Migrator.AddClass lower repo kind cls =
          { calls := [Call.PutIndex ("class_" ++ kind.Name ++ "_" ++ lower cls.Class)]
            outcome := Outcome.returned
              (some ("add class " ++ cls.Class ++ ": create index: " ++ err)) }) ∧
      (repo.PutIndex ("class_" ++ kind.Name ++ "_" ++ lower cls.Class) = none →
        (∀ err,
          repo.SetMappings ("class_" ++ kind.Name ++ "_" ++ lower cls.Class) esProperties =
            some err →
          Migrator.AddClass lower repo kind cls =
            { calls := [Call.PutIndex ("class_" ++ kind.Name ++ "_" ++ lower cls.Class),
                Call.SetMappings ("class_" ++ kind.Name ++ "_" ++ lower cls.Class) esProperties]
              outcome := Outcome.returned
                (some ("add class " ++ cls.Class ++ ": map properties: " ++ err)) }) ∧
        (repo.SetMappings ("class_" ++ kind.Name ++ "_" ++ lower cls.Class) esProperties =
            none →
          Migrator.AddClass lower repo kind cls =
            { calls := [Call.PutIndex ("class_" ++ kind.Name ++ "_" ++ lower cls.Class),
                Call.SetMappings ("class_" ++ kind.Name ++ "_" ++ lower cls.Class) esProperties]
              outcome := Outcome.returned none })) := by
  obtain ⟨es, hes⟩ := esPropertiesLoop_ok cls.Properties [] h
  have hidx : classIndexFromClass lower kind cls =
      "class_" ++ kind.Name ++ "_" ++ lower cls.Class := rfl
  refine ⟨es, hes, ?_, ?_⟩
  · intro err hp
    simp only [Migrator.AddClass, hidx, hp]
  · intro hp
    refine ⟨?_, ?_⟩
    · intro err hs
      simp only [Migrator.AddClass, Migrator.setMappings, hidx, hp, hes, hs]
    · intro hs
      simp only [Migrator.AddClass, Migrator.setMappings, hidx, hp, hes, hs]

end esvector

/-! ### The value ranges of `flush` -/

namespace lsmkv

theorem builtRecords_bounds :
    ∀ (flat : List Entry) (off : Nat), ∀ r ∈ builtRecords flat off,
      off ≤ r.valueStart ∧ r.valueStart ≤ r.valueEnd ∧
        r.valueEnd ≤ off + valueBytes flat := by
  intro flat
  induction flat with
  | nil => intro off r hr; simp [builtRecords] at hr
  | cons e rest ih =>
    intro off r hr
    rw [valueBytes_cons]
    simp only [builtRecords, List.mem_cons] at hr
    rcases hr with rfl | hr
    · simp only
      omega
    · have := ih (off + e.value.length) r hr
      omega

theorem builtRecords_forall2 :
    ∀ (flat : List Entry) (off : Nat),
      List.Forall₂ (fun e r => r.hash = murmur3.Sum128 e.key ∧
        r.valueEnd = r.valueStart + e.value.length) flat (builtRecords flat off) := by
  intro flat
  induction flat with
  | nil => intro off; exact List.Forall₂.nil
  | cons e rest ih => intro off; exact List.Forall₂.cons ⟨rfl, rfl⟩ (ih _)

theorem builtRecords_head :
    ∀ (flat : List Entry) (off : Nat), ∀ r, (builtRecords flat off).head? = some r →
      r.valueStart = off := by
  intro flat off r h
  cases flat with
  | nil => simp [builtRecords] at h
  | cons e rest =>
    simp only [builtRecords, List.head?_cons, Option.some.injEq] at h
    rw [← h]

theorem builtRecords_chain :
    ∀ (flat : List Entry) (off : Nat),
      List.Chain' (fun r s => s.valueStart = r.valueEnd) (builtRecords flat off) := by
  intro flat
  induction flat with
  | nil => intro off; exact List.chain'_nil
  | cons e rest ih =>
    intro off
    simp only [builtRecords]
    rw [List.chain'_cons']
    refine ⟨?_, ih _⟩
    intro s hs
    exact builtRecords_head rest _ s hs

theorem builtRecords_getLast :
    ∀ (flat : List Entry) (off : Nat), ∀ r, (builtRecords flat off).getLast? = some r →
      r.valueEnd = off + valueBytes flat := by
  intro flat
  induction flat with
  | nil => intro off r h; simp [builtRecords] at h
  | cons e rest ih =>
    intro off r h
    rw [valueBytes_cons]
    cases rest with
    | nil =>
      simp only [builtRecords, List.getLast?_singleton, Option.some.injEq] at h
      rw [← h]
      simp [valueBytes]
    | cons e2 rest2 =>
      have h2 : (builtRecords (e2 :: rest2) (off + e.value.length)).getLast? = some r := by
        simpa [builtRecords, List.getLast?_cons_cons] using h
      have := ih (off + e.value.length) r h2
      omega

theorem builtRecords_pairwise :
    ∀ (flat : List Entry) (off : Nat),
      List.Pairwise (fun r s => r.valueEnd ≤ s.valueStart) (builtRecords flat off) := by
  intro flat
  induction flat with
  | nil => intro off; exact List.Pairwise.nil
  | cons e rest ih =>
    intro off
    simp only [builtRecords]
    refine List.Pairwise.cons ?_ (ih _)
    intro s hs
    exact (builtRecords_bounds rest _ s hs).1

theorem builtRecords_cover :
    ∀ (flat : List Entry) (off x : Nat), off ≤ x → x < off + valueBytes flat →
      ∃ r ∈ builtRecords flat off, r.valueStart ≤ x ∧ x < r.valueEnd := by
  intro flat
  induction flat with
  | nil => intro off x h1 h2; simp [valueBytes] at h2; omega
  | cons e rest ih =>
    intro off x h1 h2
    rw [valueBytes_cons] at h2
    by_cases hx : x < off + e.value.length
    · exact ⟨_, List.mem_cons_self _ _, h1, hx⟩
    · obtain ⟨r, hr, h3, h4⟩ := ih (off + e.value.length) x (by omega) (by omega)
      exact ⟨r, List.mem_cons_of_mem _ hr, h3, h4⟩

theorem length_builtRecords :
    ∀ (flat : List Entry) (off : Nat), (builtRecords flat off).length = flat.length := by
  intro flat
  induction flat with
  | nil => intro off; rfl
  | cons e rest ih => intro off; simp [builtRecords, ih]

/-- C12. Value ranges tile the value region: when the file is created and every write succeeds
in full, the records built for the entries `e_1 .. e_N` of the in-order traversal, which are up
to their order the records of the index region of the file, are N records with: the hash of the
key of `e_i` and `valueEnd = valueStart + len(value(e_i))` in the record number `i`; `valueStart`
of the first record equal to 10; `valueStart` of each next record equal to `valueEnd` of the record
before it; `valueEnd` of the last record equal to `indexPos`.  Hence a range ends before every
later range starts, every range lies between 10 and `indexPos`, and every offset from 10 up to
`indexPos` lies in a range. -/
theorem value_ranges_tile (create : Option Error) (env : Faults) (l : Memtable)
    (h : (l.flush create env).allOk = true) :
    (readIndex (l.flush create env).data).Perm (builtRecords l.key.flattenInOrder 10) ∧
    (builtRecords l.key.flattenInOrder 10).length = l.key.flattenInOrder.length ∧
    List.Forall₂ (fun e r => r.hash = murmur3.Sum128 e.key ∧
      r.valueEnd = r.valueStart + e.value.length)
      l.key.flattenInOrder (builtRecords l.key.flattenInOrder 10) ∧
    (∀ r, (builtRecords l.key.flattenInOrder 10).head? = some r → r.valueStart = 10) ∧
    List.Chain' (fun r s => s.valueStart = r.valueEnd) (builtRecords l.key.flattenInOrder 10) ∧
    (∀ r, (builtRecords l.key.flattenInOrder 10).getLast? = some r →
      r.valueEnd = readIndexPos (l.flush create env).data) ∧
    List.Pairwise (fun r s => r.valueEnd ≤ s.valueStart)
      (builtRecords l.key.flattenInOrder 10) ∧
    (∀ r ∈ builtRecords l.key.flattenInOrder 10,
      10 ≤ r.valueStart ∧ r.valueStart ≤ r.valueEnd ∧
        r.valueEnd ≤ readIndexPos (l.flush create env).data) ∧
    (∀ x, 10 ≤ x → x < readIndexPos (l.flush create env).data →
      ∃ r ∈ builtRecords l.key.flattenInOrder 10, r.valueStart ≤ x ∧ x < r.valueEnd) := by
  obtain ⟨-, r2, -, -, -, -, r7⟩ := flush_read create env l h
  obtain ⟨-, hb, -⟩ := flush_data create env l h
  have hmax : maxFileSize = 2 ^ 63 - 1 := rfl
  have hperm : (readIndex (l.flush create env).data).Perm
      (builtRecords l.key.flattenInOrder 10) := by
    rw [r7, writtenRecords,
      ← map_recordOf_builtKeys _ _ (by omega : 10 + valueBytes l.key.flattenInOrder < 2 ^ 64)]
    exact (sort.perm_Slice hashLess _).map recordOf
  rw [r2]
  exact ⟨hperm, length_builtRecords _ _, builtRecords_forall2 _ _, builtRecords_head _ _,
    builtRecords_chain _ _, builtRecords_getLast _ _, builtRecords_pairwise _ _,
    builtRecords_bounds _ _, builtRecords_cover _ _⟩

/-- Witness of C12: ("apple", "red") and ("banana", "yellow") give the ranges from 10 to 13 and
from 13 to 19, and `indexPos = 19`. -/
theorem value_ranges_tile_witness :
    (fruits.flush none noFaults).allOk = true ∧
    (readIndex (fruits.flush none noFaults).data).Perm
      (builtRecords fruits.key.flattenInOrder 10) ∧
    (builtRecords fruits.key.flattenInOrder 10).map (fun r => (r.valueStart, r.valueEnd)) =
      [(10, 13), (13, 19)] ∧
    readIndexPos (fruits.flush none noFaults).data = 19 :=
  ⟨by decide, (value_ranges_tile none noFaults fruits (by decide)).1, by decide, by decide⟩

end lsmkv

/-! ### The mappings of the migrator -/

namespace esvector

theorem GoMap.lookup_filter_ne {β : Type} (k name : String) (h : name ≠ k) :
    ∀ m : GoMap β, List.lookup name (m.filter (fun e => e.1 != k)) = List.lookup name m := by
  intro m
  induction m with
  | nil => rfl
  | cons e rest ih =>
    obtain ⟨a, b⟩ := e
    by_cases hak : a = k
    · subst hak
      have h1 : (name == a) = false := by simpa using h
      simp [List.filter, List.lookup, h1, ih]
    · have h1 : (a != k) = true := by simpa using hak
      simp only [List.filter, h1, List.lookup]
      rw [ih]

theorem GoMap.get_set {β : Type} (m : GoMap β) (k name : String) (v : β) :
    (m.set k v).get name = if name = k then some v else m.get name := by
  unfold GoMap.set GoMap.get
  by_cases h : name = k
  · subst h
    simp [List.lookup]
  · have h1 : (name == k) = false := by simpa using h
    simp only [List.lookup, h1, h, if_false]
    exact GoMap.lookup_filter_ne k name h m

theorem mappedType_cons (p : SemanticSchemaClassProperty)
    (rest : List SemanticSchemaClassProperty) (name : String) :
    mappedType (p :: rest) name =
      match mappedType rest name with
      | some ft => some ft
      | none => if p.Name = name then primitiveType p else none := by
  have hmem : ∀ q, (rest.filter
      (fun p => decide (p.Name = name) && (primitiveType p).isSome)).getLast? = some q →
      ∃ ft, primitiveType q = some ft := by
    intro q hq
    have := List.mem_of_getLast?_eq_some hq
    simp only [List.mem_filter, Bool.and_eq_true, decide_eq_true_eq, Option.isSome_iff_exists]
      at this
    exact this.2.2
  unfold mappedType
  by_cases hc : (decide (p.Name = name) && (primitiveType p).isSome) = true
  · have hf : (p :: rest).filter (fun p => decide (p.Name = name) && (primitiveType p).isSome) =
        p :: rest.filter (fun p => decide (p.Name = name) && (primitiveType p).isSome) := by
      simp only [List.filter, hc]
    rw [hf, List.getLast?_cons]
    simp only [Bool.and_eq_true, decide_eq_true_eq] at hc
    cases hL : (rest.filter
        (fun p => decide (p.Name = name) && (primitiveType p).isSome)).getLast? with
    | none => simp [hc.1]
    | some q =>
      obtain ⟨ft, hft⟩ := hmem q hL
      simp [hft]
  · have hf : (p :: rest).filter (fun p => decide (p.Name = name) && (primitiveType p).isSome) =
        rest.filter (fun p => decide (p.Name = name) && (primitiveType p).isSome) := by
      have hc2 : (decide (p.Name = name) && (primitiveType p).isSome) = false := by
        simpa using hc
      simp only [List.filter, hc2]
    rw [hf]
    cases hL : (rest.filter
        (fun p => decide (p.Name = name) && (primitiveType p).isSome)).getLast? with
    | none =>
      simp only [Bool.and_eq_true, decide_eq_true_eq, not_and, Bool.not_eq_true,
        Option.not_isSome, Option.isNone_iff_eq_none] at hc
      by_cases hn : p.Name = name
      · simp [hn, hc hn]
      · simp [hn]
    | some q =>
      obtain ⟨ft, hft⟩ := hmem q hL
      simp [hft]

theorem primitiveType_of_length_gt (p : SemanticSchemaClassProperty)
    (h : p.DataType.length > 1) : primitiveType p = none := by
  unfold primitiveType
  cases hd : p.DataType with
  | nil => rfl
  | cons a tl =>
    cases tl with
    | nil => rw [hd] at h; simp at h
    | cons b tl2 => rfl

theorem esPropertiesLoop_spec :
    ∀ (props : List SemanticSchemaClassProperty) (esProperties : GoMap (GoMap FieldType)),
      (∀ p ∈ props, p.DataType ≠ []) →
      ∃ filled, esPropertiesLoop props esProperties = Except.ok filled ∧
        ∀ name, filled.get name =
          match mappedType props name with
          | some ft => some (typeMap ft)
          | none => esProperties.get name := by
  intro props
  induction props with
  | nil =>
    intro es _
    exact ⟨es, rfl, fun name => by simp [mappedType]⟩
  | cons prop rest ih =>
    intro es h
    have hrest : ∀ p ∈ rest, p.DataType ≠ [] := fun p hp => h p (List.mem_cons_of_mem _ hp)
    have hprop : prop.DataType ≠ [] := h prop (List.mem_cons_self _ _)
    have skip : primitiveType prop = none →
        ∃ filled, esPropertiesLoop rest es = Except.ok filled ∧
          ∀ name, filled.get name =
            match mappedType (prop :: rest) name with
            | some ft => some (typeMap ft)
            | none => es.get name := by
      intro hnone
      obtain ⟨filled, hf, hget⟩ := ih es hrest
      refine ⟨filled, hf, fun name => ?_⟩
      rw [hget name, mappedType_cons, hnone]
      cases mappedType rest name <;> simp
    have put : ∀ ft, primitiveType prop = some ft →
        ∃ filled, esPropertiesLoop rest (es.set prop.Name (typeMap ft)) = Except.ok filled ∧
          ∀ name, filled.get name =
            match mappedType (prop :: rest) name with
            | some ft => some (typeMap ft)
            | none => es.get name := by
      intro ft hsome
      obtain ⟨filled, hf, hget⟩ := ih (es.set prop.Name (typeMap ft)) hrest
      refine ⟨filled, hf, fun name => ?_⟩
      rw [hget name, mappedType_cons, hsome, GoMap.get_set]
      cases mappedType rest name with
      | some ft2 => simp
      | none =>
        by_cases hn : prop.Name = name
        · simp [hn]
        · have hn2 : ¬ name = prop.Name := fun e => hn e.symm
          simp [hn, hn2]
    unfold esPropertiesLoop
    split_ifs with h1
    · exact skip (primitiveType_of_length_gt prop h1)
    · cases hdt : prop.DataType with
      | nil => exact absurd hdt hprop
      | cons dt tl =>
        have htl : tl = [] := by
          rw [hdt] at h1
          cases tl with
          | nil => rfl
          | cons b tl2 => simp at h1
        subst htl
        have hprim : primitiveType prop = fieldTypeOf dt := by
          unfold primitiveType
          rw [hdt]
        simp only
        unfold fieldTypeOf at hprim
        split_ifs at hprim ⊢
        all_goals first
          | exact put _ hprim
          | exact skip hprim


theorem mappedType_isSome_iff (props : List SemanticSchemaClassProperty) (name : String) :
    (mappedType props name).isSome ↔
      ∃ p ∈ props, p.Name = name ∧ (primitiveType p).isSome := by
  unfold mappedType
  constructor
  · intro h
    cases hL : (props.filter
        (fun p => decide (p.Name = name) && (primitiveType p).isSome)).getLast? with
    | none => simp [hL] at h
    | some q =>
      have := List.mem_of_getLast?_eq_some hL
      simp only [List.mem_filter, Bool.and_eq_true, decide_eq_true_eq] at this
      exact ⟨q, this.1, this.2.1, this.2.2⟩
  · rintro ⟨p, hp, hn, hs⟩
    have hmem : p ∈ props.filter
        (fun p => decide (p.Name = name) && (primitiveType p).isSome) := by
      simp only [List.mem_filter, Bool.and_eq_true, decide_eq_true_eq]
      exact ⟨hp, hn, hs⟩
    cases hL : (props.filter
        (fun p => decide (p.Name = name) && (primitiveType p).isSome)).getLast? with
    | none =>
      rw [List.getLast?_eq_none_iff] at hL
      rw [hL] at hmem
      simp at hmem
    | some q =>
      have := List.mem_of_getLast?_eq_some hL
      simp only [List.mem_filter, Bool.and_eq_true, decide_eq_true_eq] at this
      simpa using this.2.2

/-- C13. The mappings of `setMappings`: for every list of properties each having at least one
data type, `setMappings` calls `SetMappings` exactly once, also when the mapping is empty, and
returns what that call returns.  The mapping that it hands over has a key `name` exactly when a
property of the list has this name and is primitive: its `DataType` has exactly one element, one
of string, text, int, number, boolean, date and geoCoordinates.  The key is bound to
`typeMap T`, the map from "type" to `T`, for the `T` of the last such property, where `T` is
Keyword, Text, Integer, Float, Boolean, Date and GeoPoint in that order. -/
theorem setMappings_maps_primitive_properties (repo : Repo) (index : String)
    (props : List SemanticSchemaClassProperty) (h : ∀ p ∈ props, p.DataType ≠ []) :
    ∃ esProperties,
      Migrator.setMappings repo index props =
        { calls := [Call.SetMappings index esProperties]
          outcome := Outcome.returned (repo.SetMappings index esProperties) } ∧
      (∀ name, esProperties.get name = (mappedType props name).map typeMap) ∧
      (∀ name, (esProperties.get name).isSome ↔
        ∃ p ∈ props, p.Name = name ∧
          ∃ dt, p.DataType = [dt] ∧ (fieldTypeOf dt).isSome) ∧
      (∀ dt, (fieldTypeOf dt).isSome ↔
        dt ∈ ["string", "text", "int", "number", "boolean", "date", "geoCoordinates"]) ∧
      List.map fieldTypeOf
          ["string", "text", "int", "number", "boolean", "date", "geoCoordinates"] =
        [some FieldType.Keyword, some FieldType.Text, some FieldType.Integer,
          some FieldType.Float, some FieldType.Boolean, some FieldType.Date,
          some FieldType.GeoPoint] ∧
      ∀ ft, typeMap ft = [("type", ft)] := by
  obtain ⟨es, hes, hget⟩ := esPropertiesLoop_spec props [] h
  have hget2 : ∀ name, es.get name = (mappedType props name).map typeMap := by
    intro name
    rw [hget name]
    cases mappedType props name <;> rfl
  refine ⟨es, ?_, hget2, ?_, ?_, by decide, fun ft => rfl⟩
  · simp only [Migrator.setMappings, hes]
  · intro name
    rw [hget2 name, Option.isSome_map', mappedType_isSome_iff]
    constructor
    · rintro ⟨p, hp, hn, hs⟩
      refine ⟨p, hp, hn, ?_⟩
      unfold primitiveType at hs
      split at hs
      · exact ⟨_, by assumption, hs⟩
      · simp at hs
    · rintro ⟨p, hp, hn, dt, hdt, hs⟩
      refine ⟨p, hp, hn, ?_⟩
      unfold primitiveType
      rw [hdt]
      exact hs
  · intro dt
    unfold fieldTypeOf schema.DataTypeString schema.DataTypeText schema.DataTypeInt
      schema.DataTypeNumber schema.DataTypeBoolean schema.DataTypeDate
      schema.DataTypeGeoCoordinates
    simp only [List.mem_cons, List.mem_singleton, List.not_mem_nil, or_false]
    split_ifs <;> simp_all

/-- Witness of C13: of the five properties of `cityProperties` the reference and the property of
two data types are skipped, and the second property "name" wins over the first. -/
theorem setMappings_maps_primitive_properties_witness :
    (∀ p ∈ cityProperties, p.DataType ≠ []) ∧
    Migrator.setMappings willingRepo "class_thing_city" cityProperties =
      { calls := [Call.SetMappings "class_thing_city"
          [("name", [("type", FieldType.Text)]), ("population", [("type", FieldType.Integer)])]]
        outcome := Outcome.returned none } ∧
    ∃ esProperties,
      Migrator.setMappings willingRepo "class_thing_city" cityProperties =
        { calls := [Call.SetMappings "class_thing_city" esProperties]
          outcome :=
            Outcome.returned (willingRepo.SetMappings "class_thing_city" esProperties) } ∧
      esProperties.get "name" = (mappedType cityProperties "name").map typeMap :=
  ⟨by decide, by decide,
    (setMappings_maps_primitive_properties willingRepo "class_thing_city" cityProperties
      (by decide)).imp (fun _ hes => ⟨hes.1, hes.2.1 "name"⟩)⟩

/-- C14 fails on the code: for the class "City" and the property "population", when
`SetMappings` fails with "boom", `AddProperty` returns the message with the class name in the
place of the property and the property name in the place of the class. -/
theorem AddProperty_swaps_names (lower : String → String) :
    (Migrator.AddProperty lower failingRepo thing "City" population).outcome =
      Outcome.returned (some "add property City to class population: map properties: boom") ∧
    (Migrator.AddProperty lower failingRepo thing "City" population).outcome ≠
      Outcome.returned (some "add property population to class City: map properties: boom") ∧
    (Migrator.AddProperty lower failingRepo thing "City" population).calls =
      [Call.SetMappings ("class_" ++ "thing" ++ "_" ++ lower "City")
        [("population", [("type", FieldType.Integer)])]] := by
  have h : (Migrator.AddProperty lower failingRepo thing "City" population).outcome =
      Outcome.returned (some "add property City to class population: map properties: boom") :=
    rfl
  refine ⟨h, ?_, rfl⟩
  rw [h]
  decide

theorem esPropertiesLoop_panics :
    ∀ (props : List SemanticSchemaClassProperty) (esProperties : GoMap (GoMap FieldType)),
      (∃ p ∈ props, p.DataType = []) →
      esPropertiesLoop props esProperties =
        Except.error "runtime error: index out of range [0] with length 0" := by
  intro props
  induction props with
  | nil => intro es h; simp at h
  | cons prop rest ih =>
    intro es h
    by_cases hprop : prop.DataType = []
    · unfold esPropertiesLoop
      simp [hprop]
    · have hrest : ∃ p ∈ rest, p.DataType = [] := by
        obtain ⟨p, hp, hd⟩ := h
        rcases List.mem_cons.1 hp with rfl | hp
        · exact absurd hd hprop
        · exact ⟨p, hp, hd⟩
      unfold esPropertiesLoop
      split_ifs with h1
      · exact ih es hrest
      · cases hdt : prop.DataType with
        | nil => exact absurd hdt hprop
        | cons dt tl =>
          simp only
          split_ifs <;> exact ih _ hrest

/-- A property without a data type anywhere in the list makes `setMappings` panic before it
calls the repo. -/
theorem setMappings_panics_of_untyped (repo : Repo) (index : String)
    (props : List SemanticSchemaClassProperty) (h : ∃ p ∈ props, p.DataType = []) :
    Migrator.setMappings repo index props =
      { calls := []
        outcome := Outcome.panic "runtime error: index out of range [0] with length 0" } := by
  simp only [Migrator.setMappings, esPropertiesLoop_panics props [] h]

/-- C15 fails on the code: on the one property "name" with an empty `DataType`, `setMappings`
evaluates `prop.DataType[0]`, an index out of range, and panics; `SetMappings` is not called. -/
theorem setMappings_panics_on_empty_DataType :
    Migrator.setMappings willingRepo "class_thing_city" [{ Name := "name", DataType := [] }] =
      { calls := []
        outcome := Outcome.panic "runtime error: index out of range [0] with length 0" } := by
  decide

end esvector

/-! ### The extraction of the hybrid search -/

namespace common_filters

section

variable {NT NV KW : Type} (x : Helpers NT NV KW)

theorem checked_cases (args : HybridSearch NT NV KW) :
    (checked args = (some args, none) ∧
      ¬ (args.NearTextParams.isSome = true ∧ args.NearVectorParams.isSome = true) ∧
      ¬ (args.Vector.isSome = true ∧ args.NearTextParams.isSome = true) ∧
      ¬ (args.Vector.isSome = true ∧ args.NearVectorParams.isSome = true)) ∨
    (∃ err, checked args = (none, some err) ∧
      ((args.NearTextParams.isSome = true ∧ args.NearVectorParams.isSome = true) ∨
       (args.Vector.isSome = true ∧ args.NearTextParams.isSome = true) ∨
       (args.Vector.isSome = true ∧ args.NearVectorParams.isSome = true))) := by
  unfold checked
  split_ifs with h1 h2 h3
  · exact Or.inr ⟨_, rfl, Or.inl (by simpa using h1)⟩
  · exact Or.inr ⟨_, rfl, Or.inr (Or.inl (by simpa using h2))⟩
  · exact Or.inr ⟨_, rfl, Or.inr (Or.inr (by simpa using h3))⟩
  · exact Or.inl ⟨rfl, by simpa using h1, by simpa using h2, by simpa using h3⟩

theorem afterAlpha_ok (source : Map) (near : Option NT × Option NV)
    (wsr : List (WeightedSearchResult NT NV KW)) (alpha : Float64)
    (r : Option (HybridSearch NT NV KW) × Option String)
    (h : afterAlpha x source near wsr alpha = Except.ok r) :
    ∃ query fusionType vector properties targetVectors,
      extractQuery source = Except.ok query ∧
      extractFusionType source = Except.ok fusionType ∧
      extractVector x source = Except.ok vector ∧
      r = checked
        { SubSearches := wsr, Type_ := "hybrid", Alpha := alpha, Query := query,
          Vector := vector, Properties := properties, TargetVectors := targetVectors,
          FusionAlgorithm := fusionType, NearTextParams := near.1,
          NearVectorParams := near.2 } := by
  unfold afterAlpha at h
  split at h
  · simp at h
  · rename_i query hq
    split at h
    · simp at h
    · rename_i fusionType hf
      split at h
      · simp at h
      · rename_i vector hv
        split at h
        · simp at h
        · rename_i properties hp
          split at h
          · simp at h
          · rename_i targetVectors ht
            simp only [Except.ok.injEq] at h
            exact ⟨query, fusionType, vector, properties, targetVectors, hq, hf, hv, h.symm⟩

theorem ExtractHybridSearch_ok (source : Map) (explainScore : Bool)
    (r : Option (HybridSearch NT NV KW) × Option String)
    (h : ExtractHybridSearch x source explainScore = Except.ok r) :
    ∃ subsearches near,
      operands source = Except.ok subsearches ∧ namedSearches x source = Except.ok near ∧
      ((∃ err, subSearches x explainScore subsearches [] = Except.ok (Except.error err) ∧
          r = (none, some err)) ∨
        ∃ wsr alpha, subSearches x explainScore subsearches [] = Except.ok (Except.ok wsr) ∧
          extractAlpha source = Except.ok alpha ∧
          (((alpha.lt (Float64.num 0 0) || (Float64.num 1 0).lt alpha) = true ∧
              r = (none, some "alpha should be between 0.0 and 1.0")) ∨
            ((alpha.lt (Float64.num 0 0) || (Float64.num 1 0).lt alpha) = false ∧
              afterAlpha x source near wsr alpha = Except.ok r))) := by
  unfold ExtractHybridSearch at h
  split at h
  · simp at h
  · rename_i subsearches ho
    split at h
    · simp at h
    · rename_i near hn
      refine ⟨subsearches, near, ho, hn, ?_⟩
      split at h
      · simp at h
      · rename_i err hs
        simp only [Except.ok.injEq] at h
        exact Or.inl ⟨err, hs, h.symm⟩
      · rename_i wsr hs
        split at h
        · simp at h
        · rename_i alpha ha
          refine Or.inr ⟨wsr, alpha, hs, ha, ?_⟩
          split_ifs at h with hc
          · simp only [Except.ok.injEq] at h
            exact Or.inl ⟨hc, h.symm⟩
          · exact Or.inr ⟨by simpa using hc, h⟩

theorem namedSearch_isSome {α : Type} (extract : Map → α) (m : Map) (key : String)
    (r : Option α) (h : namedSearch extract m key = Except.ok r) :
    r.isSome = !(index m key).isNil := by
  unfold namedSearch at h
  split_ifs at h with hnil
  · simp only [Except.ok.injEq] at h
    simp [← h, hnil]
  · split at h
    · simp at h
    · simp only [Except.ok.injEq] at h
      simp [← h, hnil]

theorem namedSearches_isSome (source : Map) (near : Option NT × Option NV)
    (h : namedSearches x source = Except.ok near) :
    near.1.isSome = hasNamed source "nearText" ∧
      near.2.isSome = hasNamed source "nearVector" := by
  unfold namedSearches at h
  unfold hasNamed
  simp only at h
  split_ifs at h with hnil
  · simp only [Except.ok.injEq] at h
    cases hi : index source "searches" <;> simp [hi, Value.isNil] at hnil ⊢
    simp [← h]
  · cases hi : index source "searches" with
    | slice vs =>
      simp only [hi, asSlice] at h
      cases vs with
      | nil => simp at h
      | cons first rest =>
        simp only at h
        cases first with
        | map m =>
          simp only [asMap] at h
          split at h
          · simp at h
          · rename_i nt hnt
            split at h
            · simp at h
            · rename_i nv hnv
              simp only [Except.ok.injEq] at h
              rw [← h]
              exact ⟨namedSearch_isSome _ _ _ _ hnt, namedSearch_isSome _ _ _ _ hnv⟩
        | _ => simp [asMap] at h
    | _ => simp [hi, asSlice] at h

theorem extractVector_isSome (source : Map) (vector : Option (List Float64))
    (h : extractVector x source = Except.ok vector) : vector.isSome = hasVector source := by
  unfold extractVector at h
  unfold hasVector
  split at h
  · rename_i hl
    simp only [Except.ok.injEq] at h
    simp [← h, hl]
  · rename_i v hl
    split at h
    · simp at h
    · split at h
      · simp at h
      · simp only [Except.ok.injEq] at h
        simp [← h, hl]

theorem weighted_map_ne_error (subsearch : Map) (key : String)
    (extract : Map → SearchParams NT NV KW) (typ err : String) :
    (weighted subsearch key extract typ).map Except.ok ≠
      (Except.ok (Except.error err) :
        Except Panic (Except String (WeightedSearchResult NT NV KW))) := by
  unfold weighted
  split
  · simp [Except.map]
  · split <;> simp [Except.map]

theorem subSearch_error (explainScore : Bool) (subsearch : Map) (err : String)
    (h : subSearch x explainScore subsearch = Except.ok (Except.error err)) :
    unknownOperand subsearch = true ∧ err = "unknown subsearch type: " ++ x.format subsearch := by
  unfold subSearch at h
  split_ifs at h with h1 h2 h3
  · exact absurd h (weighted_map_ne_error _ _ _ _ _)
  · exact absurd h (weighted_map_ne_error _ _ _ _ _)
  · exact absurd h (weighted_map_ne_error _ _ _ _ _)
  · simp only [Except.ok.injEq, Except.error.injEq] at h
    refine ⟨?_, h.symm⟩
    simp only [Bool.not_eq_true', Bool.not_eq_false] at h1 h2 h3
    simp [unknownOperand, h1, h2, h3]

theorem subSearches_error (explainScore : Bool) :
    ∀ (subsearches : List Map) (acc : List (WeightedSearchResult NT NV KW)) (err : String),
      subSearches x explainScore subsearches acc = Except.ok (Except.error err) →
      ∃ subsearch ∈ subsearches, unknownOperand subsearch = true ∧
        err = "unknown subsearch type: " ++ x.format subsearch := by
  intro subsearches
  induction subsearches with
  | nil => intro acc err h; simp [subSearches] at h
  | cons ss rest ih =>
    intro acc err h
    unfold subSearches at h
    split at h
    · simp at h
    · rename_i e hs
      simp only [Except.ok.injEq, Except.error.injEq] at h
      subst h
      obtain ⟨h1, h2⟩ := subSearch_error x explainScore ss e hs
      exact ⟨ss, List.mem_cons_self _ _, h1, h2⟩
    · obtain ⟨s, hs, h1, h2⟩ := ih _ err h
      exact ⟨s, List.mem_cons_of_mem _ hs, h1, h2⟩

theorem assertEach_asMap_mem :
    ∀ (vs : List Value) (ms : List Map), assertEach asMap vs = Except.ok ms →
      ∀ m ∈ ms, Value.map m ∈ vs := by
  intro vs
  induction vs with
  | nil =>
    intro ms h m hm
    simp only [assertEach, Except.ok.injEq] at h
    subst h
    simp at hm
  | cons v rest ih =>
    intro ms h m hm
    unfold assertEach at h
    split at h
    · simp at h
    · rename_i a ha
      split at h
      · simp at h
      · rename_i as has
        simp only [Except.ok.injEq] at h
        subst h
        have hv : v = Value.map a := by
          cases v <;> simp [asMap] at ha
          rw [ha]
        rcases List.mem_cons.1 hm with rfl | hm
        · rw [hv]
          exact List.mem_cons_self _ _
        · exact List.mem_cons_of_mem _ (ih as has m hm)

theorem operands_mem (source : Map) (subsearches : List Map)
    (h : operands source = Except.ok subsearches) :
    ∀ m ∈ subsearches,
      ∃ vs, index source "operands" = Value.slice vs ∧ Value.map m ∈ vs := by
  intro m hm
  unfold operands at h
  simp only at h
  split_ifs at h with hnil
  · simp only [Except.ok.injEq] at h
    subst h
    simp at hm
  · split at h
    · simp at h
    · rename_i vs hvs
      refine ⟨vs, ?_, assertEach_asMap_mem vs subsearches h m hm⟩
      cases hi : index source "operands" <;> simp [hi, asSlice] at hvs
      rw [hvs]

theorem Float64.le_of_not_lt (a : Float64) (ha : a ≠ Float64.NaN)
    (h0 : a.lt (Float64.num 0 0) = false) (h1 : (Float64.num 1 0).lt a = false) :
    (Float64.num 0 0).le a = true ∧ a.le (Float64.num 1 0) = true := by
  cases a with
  | NaN => exact absurd rfl ha
  | Inf negative => cases negative <;> simp [Float64.lt] at h0 h1
  | num m e =>
    simp only [Float64.lt, decide_eq_false_iff_not, not_lt] at h0 h1
    simp only [Float64.le, decide_eq_true_eq]
    exact ⟨h0, h1⟩

/-- C16, as amended. Exclusivity of the vector sources: for every source map, when
`ExtractHybridSearch` returns a result without error, the `Type` of the result is "hybrid" and no
two of its `Vector`, `NearTextParams` and `NearVectorParams` are non-nil; and when two of a
"vector" entry, a nearText in the first element of "searches" and a nearVector in the first
element of "searches" are supplied and the call returns, it returns no result and an error. -/
theorem hybrid_vector_source_exclusive (source : Map) (explainScore : Bool) :
    (∀ args, ExtractHybridSearch x source explainScore = Except.ok (some args, none) →
      args.Type_ = "hybrid" ∧
      ¬ (args.Vector.isSome = true ∧ args.NearTextParams.isSome = true) ∧
      ¬ (args.Vector.isSome = true ∧ args.NearVectorParams.isSome = true) ∧
      ¬ (args.NearTextParams.isSome = true ∧ args.NearVectorParams.isSome = true)) ∧
    (((hasVector source = true ∧ hasNamed source "nearText" = true) ∨
        (hasVector source = true ∧ hasNamed source "nearVector" = true) ∨
        (hasNamed source "nearText" = true ∧ hasNamed source "nearVector" = true)) →
      ∀ r, ExtractHybridSearch x source explainScore = Except.ok r →
        r.1 = none ∧ r.2.isSome = true) := by
  constructor
  · intro args h
    obtain ⟨subs, near, -, -, hcase⟩ := ExtractHybridSearch_ok x source explainScore _ h
    rcases hcase with ⟨err, -, hr⟩ | ⟨wsr, alpha, -, -, ⟨-, hr⟩ | ⟨-, hafter⟩⟩
    · simp at hr
    · simp at hr
    · obtain ⟨q, ft, vec, ps, tvs, -, -, -, hr⟩ :=
        afterAlpha_ok x source near wsr alpha _ hafter
      rcases checked_cases
        ({ SubSearches := wsr, Type_ := "hybrid", Alpha := alpha, Query := q, Vector := vec,
           Properties := ps, TargetVectors := tvs, FusionAlgorithm := ft,
           NearTextParams := near.1, NearVectorParams := near.2 } : HybridSearch NT NV KW)
        with ⟨hc, n1, n2, n3⟩ | ⟨err, hc, -⟩
      · rw [hc] at hr
        simp only [Prod.mk.injEq, Option.some.injEq, and_true] at hr
        subst hr
        exact ⟨rfl, n2, n3, n1⟩
      · rw [hc] at hr
        simp at hr
  · intro htwo r h
    obtain ⟨subs, near, -, hnear, hcase⟩ := ExtractHybridSearch_ok x source explainScore _ h
    rcases hcase with ⟨err, -, hr⟩ | ⟨wsr, alpha, -, -, ⟨-, hr⟩ | ⟨-, hafter⟩⟩
    · simp [hr]
    · simp [hr]
    · obtain ⟨q, ft, vec, ps, tvs, -, -, hvec, hr⟩ :=
        afterAlpha_ok x source near wsr alpha _ hafter
      obtain ⟨hnt, hnv⟩ := namedSearches_isSome x source near hnear
      have hv := extractVector_isSome x source vec hvec
      rcases checked_cases
        ({ SubSearches := wsr, Type_ := "hybrid", Alpha := alpha, Query := q, Vector := vec,
           Properties := ps, TargetVectors := tvs, FusionAlgorithm := ft,
           NearTextParams := near.1, NearVectorParams := near.2 } : HybridSearch NT NV KW)
        with ⟨-, n1, n2, n3⟩ | ⟨err, hc, -⟩
      · simp only at n1 n2 n3
        rw [hnt, hnv] at n1
        rw [hv, hnt] at n2
        rw [hv, hnv] at n3
        rcases htwo with h2 | h2 | h2
        · exact absurd h2 n2
        · exact absurd h2 n3
        · exact absurd h2 n1
      · rw [hc] at hr
        simp [hr]

/-- C17, as amended. Alpha and fusion: for every source map, let `a` be the value of its "alpha"
entry when present and `DefaultAlpha` = 0.75 when absent.  If `a < 0` or `a > 1` and the call
returns, it returns a nil result and an error, which is "alpha should be between 0.0 and 1.0"
unless an operand of "operands" has none of "sparseSearch", "nearText" and "nearVector": then it
is the error of that operand.  Whenever a result is returned without error, its `Alpha` is `a`,
neither `a < 0` nor `a > 1` holds, so that `0 <= Alpha <= 1` unless `a` is not-a-number, and its
`FusionAlgorithm` is the "fusionType" entry when present and `HybridRelativeScoreFusion` = 1
when absent. -/
theorem hybrid_alpha_default_and_range (source : Map) (explainScore : Bool) (a : Float64)
    (ha : source.lookup "alpha" = some (Value.float64 a) ∨
      (source.lookup "alpha" = none ∧ a = DefaultAlpha)) :
    DefaultAlpha = Float64.num 3 2 ∧ HybridRelativeScoreFusion = 1 ∧
    ((a.lt (Float64.num 0 0) = true ∨ (Float64.num 1 0).lt a = true) →
      ∀ r, ExtractHybridSearch x source explainScore = Except.ok r →
        r = (none, some "alpha should be between 0.0 and 1.0") ∨
        ∃ operands operand, index source "operands" = Value.slice operands ∧
          Value.map operand ∈ operands ∧ unknownOperand operand = true ∧
          r = (none, some ("unknown subsearch type: " ++ x.format operand))) ∧
    (∀ args, ExtractHybridSearch x source explainScore = Except.ok (some args, none) →
      args.Alpha = a ∧ a.lt (Float64.num 0 0) = false ∧ (Float64.num 1 0).lt a = false ∧
      (a ≠ Float64.NaN → (Float64.num 0 0).le args.Alpha = true ∧
        args.Alpha.le (Float64.num 1 0) = true) ∧
      (∀ n, source.lookup "fusionType" = some (Value.int n) → args.FusionAlgorithm = n) ∧
      (source.lookup "fusionType" = none →
        args.FusionAlgorithm = HybridRelativeScoreFusion)) := by
  have halpha : extractAlpha source = Except.ok a := by
    unfold extractAlpha
    rcases ha with h | ⟨h, rfl⟩
    · rw [h]
      rfl
    · rw [h]
  refine ⟨rfl, rfl, ?_, ?_⟩
  · intro hout r h
    obtain ⟨subs, near, hops, -, hcase⟩ := ExtractHybridSearch_ok x source explainScore _ h
    rcases hcase with ⟨err, hs, hr⟩ | ⟨wsr, alpha, -, hal, ⟨-, hr⟩ | ⟨hc, -⟩⟩
    · obtain ⟨ss, hss, hun, herr⟩ := subSearches_error x explainScore subs [] err hs
      obtain ⟨vs, hvs, hmem⟩ := operands_mem source subs hops ss hss
      exact Or.inr ⟨vs, ss, hvs, hmem, hun, by rw [hr, herr]⟩
    · exact Or.inl hr
    · rw [halpha] at hal
      simp only [Except.ok.injEq] at hal
      subst hal
      rcases hout with h0 | h1
      · simp [h0] at hc
      · simp [h1] at hc
  · intro args h
    obtain ⟨subs, near, -, -, hcase⟩ := ExtractHybridSearch_ok x source explainScore _ h
    rcases hcase with ⟨err, -, hr⟩ | ⟨wsr, alpha, -, hal, ⟨-, hr⟩ | ⟨hc, hafter⟩⟩
    · simp at hr
    · simp at hr
    · rw [halpha] at hal
      simp only [Except.ok.injEq] at hal
      subst hal
      obtain ⟨q, ft, vec, ps, tvs, -, hft, -, hr⟩ := afterAlpha_ok x source near wsr a _ hafter
      simp only [Bool.or_eq_false_iff] at hc
      rcases checked_cases
        ({ SubSearches := wsr, Type_ := "hybrid", Alpha := a, Query := q, Vector := vec,
           Properties := ps, TargetVectors := tvs, FusionAlgorithm := ft,
           NearTextParams := near.1, NearVectorParams := near.2 } : HybridSearch NT NV KW)
        with ⟨hck, -⟩ | ⟨err, hck, -⟩
      · rw [hck] at hr
        simp only [Prod.mk.injEq, Option.some.injEq, and_true] at hr
        subst hr
        refine ⟨rfl, hc.1, hc.2, fun hn => Float64.le_of_not_lt a hn hc.1 hc.2, ?_, ?_⟩
        · intro n hn
          simp only [extractFusionType, hn, asInt, Except.ok.injEq] at hft
          exact hft.symm
        · intro hn
          simp only [extractFusionType, hn, Except.ok.injEq] at hft
          exact hft.symm
      · rw [hck] at hr
        simp at hr

end

/-- Witness of C17, as amended: the alpha 0.25 and the fusion type 0 are taken over. -/
theorem hybrid_alpha_default_and_range_witness :
    (alphaQuarter.lookup "alpha" = some (Value.float64 (Float64.num 1 2)) ∨
      (alphaQuarter.lookup "alpha" = none ∧ Float64.num 1 2 = DefaultAlpha)) ∧
    ExtractHybridSearch plainHelpers alphaQuarter false =
      Except.ok (some alphaQuarterResult, none) ∧
    alphaQuarterResult.Alpha = Float64.num 1 2 ∧
    ((Float64.num 0 0).le alphaQuarterResult.Alpha = true ∧
      alphaQuarterResult.Alpha.le (Float64.num 1 0) = true) ∧
    alphaQuarterResult.FusionAlgorithm = 0 :=
  ⟨Or.inl rfl, by decide,
    ((hybrid_alpha_default_and_range plainHelpers alphaQuarter false (Float64.num 1 2)
      (Or.inl rfl)).2.2.2 alphaQuarterResult (by decide)).1,
    ((hybrid_alpha_default_and_range plainHelpers alphaQuarter false (Float64.num 1 2)
      (Or.inl rfl)).2.2.2 alphaQuarterResult (by decide)).2.2.2.1 (by decide),
    ((hybrid_alpha_default_and_range plainHelpers alphaQuarter false (Float64.num 1 2)
      (Or.inl rfl)).2.2.2 alphaQuarterResult (by decide)).2.2.2.2.1 0 rfl⟩

/-- Witness of C16, as amended: a "vector" entry alone gives a result whose `Vector` only is
non-nil; a "vector" entry with a nearVector in "searches" gives an error and no result. -/
theorem hybrid_vector_source_exclusive_witness :
    ExtractHybridSearch plainHelpers vectorOnly false = Except.ok (some vectorOnlyResult, none) ∧
    vectorOnlyResult.Type_ = "hybrid" ∧
    (hasVector vectorAndNearVector = true ∧ hasNamed vectorAndNearVector "nearVector" = true) ∧
    ExtractHybridSearch plainHelpers vectorAndNearVector false =
      Except.ok (none, some "cannot have both vector and nearVectorParams") ∧
    ((none, some "cannot have both vector and nearVectorParams") :
      Option (HybridSearch Unit Unit Unit) × Option String).2.isSome = true :=
  ⟨by decide,
    ((hybrid_vector_source_exclusive plainHelpers vectorOnly false).1 vectorOnlyResult
      (by decide)).1,
    by decide, by decide,
    ((hybrid_vector_source_exclusive plainHelpers vectorAndNearVector false).2
      (Or.inr (Or.inl (by decide))) _ (by decide)).2⟩

/-- C16 as stated fails: a "vector" entry and a nearText in the first element of "searches" are
supplied, and the call panics on the type assertion of the "query" entry, an integer: no error
is returned. -/
theorem hybrid_two_sources_panic :
    hasVector vectorAndNearText = true ∧ hasNamed vectorAndNearText "nearText" = true ∧
    ExtractHybridSearch plainHelpers vectorAndNearText false =
      Except.error (Panic.typeAssertion "string") := by
  decide

/-- C17 as stated fails: with the alpha 2 and an operand of unknown type the error returned is
that of the operand, not that of the alpha; and with an alpha that is not-a-number a result is
returned whose `Alpha` is not between 0 and 1. -/
theorem hybrid_alpha_not_checked :
    ExtractHybridSearch plainHelpers unknownOperandAlphaTwo false =
      Except.ok (none, some "unknown subsearch type: map[...]") ∧
    (Float64.num 1 0).lt (Float64.num 2 0) = true ∧
    ExtractHybridSearch plainHelpers alphaNaN false = Except.ok (some alphaNaNResult, none) ∧
    alphaNaNResult.Alpha = Float64.NaN ∧
    (Float64.num 0 0).le alphaNaNResult.Alpha = false := by
  decide

end common_filters
